import Mathlib

/-!
Audio translator front end (`src/App.jsx`).

A shallow embedding of the `AudioTranslator` component: its React state, the
language selectors, the microphone handler `handleMicClick` with the part of
it that runs once `getUserMedia` has answered, the recorder callbacks
`ondataavailable` / `onstop`, and the part of `onstop` that runs once `fetch`
has settled.  Each `await` is a point where other events may be taken.
Browser objects the component talks to (the microphone requests it made, the
`MediaRecorder`s it created, the requests it sent, the audio it played) are
kept in the state as explicit logs.
-/

namespace AudioTranslator

/-! ## JavaScript values -/

/-- A JavaScript number, kept through the two observations the component makes
of one: `ToBoolean` (false exactly for `0`, `-0` and `NaN`) and `ToString`. -/
structure JSNumber where
  isZeroOrNaN : Bool
  text : String

/-- The values `response.json()` can resolve to, plus `undefined`, which is
what reading a missing property gives. -/
inductive JSValue where
  | undefined
  | null
  | bool (b : Bool)
  | num (n : JSNumber)
  | str (s : String)
  | arr (items : List JSValue)
  | obj (props : List (String × JSValue))

namespace JSValue

/-- The conversion `ToBoolean`: what `if (v)` tests. -/
def truthy : JSValue → Bool
  | undefined => false
  | null => false
  | bool b => b
  | num n => !n.isZeroOrNaN
  | str s => s != ""
  | arr _ => true
  | obj _ => true

/-- The last binding of `key` in a property list (`JSON.parse` keeps the last
of duplicated keys). -/
def lookupLast (key : String) : List (String × JSValue) → Option JSValue
  | [] => none
  | (k, v) :: rest =>
    match lookupLast key rest with
    | some w => some w
    | none => if k == key then some v else none

/-- The values on which a property read throws a `TypeError`. -/
def isNullish : JSValue → Bool
  | undefined => true
  | null => true
  | _ => false

/-- Property read `v.key` on a value that is not nullish, for the names the
component reads (`error`, `original_text`, `translated_text`, `audio_url`): a
name that is not an own property reads as `undefined`, none of these names
being on a built-in prototype. -/
def prop (v : JSValue) (key : String) : JSValue :=
  match v with
  | obj props => (lookupLast key props).getD undefined
  | _ => undefined

/-- Whether a parsed object has an own property called `key`. -/
def hasOwn (key : String) (props : List (String × JSValue)) : Bool :=
  props.any (fun p => p.1 == key)

mutual
/-- The conversion `ToString` of a value, `none` when the conversion throws a `TypeError`
(a parsed object whose own `toString` property shadows the callable one). -/
def toStr : JSValue → Option String
  | undefined => some "undefined"
  | null => some "null"
  | bool true => some "true"
  | bool false => some "false"
  | num n => some n.text
  | str s => some s
  | arr items => join items
  | obj props => if hasOwn "toString" props then none else some "[object Object]"
/-- The method `Array.prototype.join` with the default separator. -/
def join : List JSValue → Option String
  | [] => some ""
  | [x] => joinItem x
  | x :: y :: rest =>
    match joinItem x, join (y :: rest) with
    | some a, some b => some (a ++ "," ++ b)
    | _, _ => none
/-- The text one array element contributes to `join`. -/
def joinItem : JSValue → Option String
  | undefined => some ""
  | null => some ""
  | bool true => some "true"
  | bool false => some "false"
  | num n => some n.text
  | str s => some s
  | arr items => join items
  | obj props => if hasOwn "toString" props then none else some "[object Object]"
end

/-- The operator `v + s` with a string on the right: string concatenation after
`ToPrimitive` of the left side; `none` when that throws. -/
def plus (v : JSValue) (s : String) : Option String :=
  (toStr v).map (fun a => a ++ s)

end JSValue

/-! ## Language table -/

/-- The object `languageMap`: language name to wire code, in source order. -/
def languageMap : List (String × String) :=
  [("english", "en"), ("hindi", "hi"), ("bengali", "bn"), ("tamil", "ta"),
   ("telugu", "te"), ("gujarati", "gu"), ("spanish", "es"), ("french", "fr"),
   ("german", "de"), ("chinese", "zh"), ("japanese", "ja"), ("russian", "ru")]

/-- The array `Object.keys(languageMap)`. -/
def languageKeys : List String := languageMap.map Prod.fst

/-- The read `languageMap[name]` for a name that is a key of the table or no
property at all, with `none` for `undefined`; a `name` that is itself
`undefined` is looked up under the key "undefined". -/
def languageCode (name : Option String) : Option String :=
  languageMap.lookup (name.getD "undefined")

/-! ## Browser objects -/

abbrev Byte := Fin 256

/-- The bytes of one `event.data` handed to `ondataavailable`. -/
abbrev Chunk := List Byte

structure Blob where
  content : List Byte
  type : String
  deriving DecidableEq, Repr

inductive FormValue where
  | blob (b : Blob)
  | text (s : String)
  deriving DecidableEq, Repr

/-- The entries of a `FormData`, in the order they were appended. -/
abbrev FormData := List (String × FormValue)

/-- The text `FormData.append` stores for a non-Blob value. -/
def formText (v : Option String) : FormValue :=
  .text (v.getD "undefined")

/-- Where a `MediaRecorder` is in its life: started, `stop()` called with its
`stop` event still to fire, or `onstop` already run. -/
inductive RecorderPhase where
  | recording
  | stopping
  | inactive
  deriving DecidableEq, Repr

/-- One `MediaRecorder` created by `handleMicClick`, with what its callbacks
close over: the array `audioChunks` and the `sourceLanguage` /
`targetLanguage` bindings of the render whose `handleMicClick` created it. -/
structure Recorder where
  sourceLanguage : String
  targetLanguage : Option String
  audioChunks : List Chunk
  phase : RecorderPhase
  deriving DecidableEq, Repr

/-- One `fetch` call: the body sent, whether it has settled, and the recorder
whose `onstop` made the call. -/
structure Request where
  formData : FormData
  settled : Bool
  recorder : Nat
  deriving DecidableEq, Repr

/-- What `await fetch(...)` followed by `await response.json()` can give:
the fetch promise rejects, or it resolves to a response with a status and a
body that parses to `json` (`none` when `response.json()` rejects). -/
inductive FetchResult where
  | rejected
  | response (status : Nat) (json : Option JSValue)

/-- The outcome of `getUserMedia`, `new MediaRecorder` and `recorder.start()`
taken together: either all succeed, or one of them throws. -/
inductive MicAccess where
  | granted
  | refused
  deriving DecidableEq, Repr

/-- One call of `handleMicClick` suspended at `await getUserMedia`: the
`sourceLanguage` / `targetLanguage` its closure holds (those of the render whose
button was clicked) and whether the microphone request has been answered. -/
structure MicRequest where
  sourceLanguage : String
  targetLanguage : Option String
  settled : Bool
  deriving DecidableEq, Repr

/-! ## Component state -/

/-- The `useState` cells of `AudioTranslator`, then the browser objects it has
created: microphone requests, recorders and `fetch` requests (each named by
its index), and the URLs handed to `new Audio(...).play()`. -/
structure State where
  sourceLanguage : String
  targetLanguage : Option String
  originalText : JSValue
  translatedText : JSValue
  isRecording : Bool
  mediaRecorder : Option Nat
  errorMessage : String
  micRequests : List MicRequest
  recorders : List Recorder
  requests : List Request
  played : List String

/-- The state of the first render. -/
def init : State where
  sourceLanguage := "english"
  targetLanguage := some "hindi"
  originalText := .str ""
  translatedText := .str ""
  isRecording := false
  mediaRecorder := none
  errorMessage := ""
  micRequests := []
  recorders := []
  requests := []
  played := []

def speakAgain : String := "⚠️ Speak Again..."

def serverError : String := "⚠️ Server Error, Try Again..."

/-! ## Language selectors -/

def handleSourceLanguageChange (st : State) (value : String) : State :=
  { st with sourceLanguage := value }

def handleTargetLanguageChange (st : State) (value : String) : State :=
  { st with targetLanguage := some value }

/-- The `onValueChange` of the source `Select`. -/
def sourceOnValueChange (st : State) (value : String) : State :=
  let st1 := handleSourceLanguageChange st value
  if some value = st.targetLanguage then
    { st1 with targetLanguage := languageKeys.find? (fun lang => lang != value) }
  else st1

/-- The items the source `Select` renders. -/
def sourceChoices (_st : State) : List String := languageKeys

/-- The items the target `Select` renders. -/
def targetChoices (st : State) : List String :=
  languageKeys.filter (fun lang => lang != st.sourceLanguage)

/-! ## Recording -/

/-- The callback `recorder.ondataavailable`. -/
def ondataavailable (recorder : Recorder) (data : Chunk) : Recorder :=
  { recorder with audioChunks := recorder.audioChunks ++ [data] }

/-- The call `mediaRecorder.stop()`: `none` when it throws, on a `null`
`mediaRecorder` or on a recorder that is not recording. -/
def stopRecorder (recorders : List Recorder) (mediaRecorder : Option Nat) :
    Option (List Recorder) :=
  match mediaRecorder with
  | none => none
  | some r =>
    match recorders[r]? with
    | some recorder =>
      if recorder.phase = .recording then
        some (recorders.set r { recorder with phase := .stopping })
      else none
    | none => none

/-- The handler `handleMicClick` from the click to where it first yields: when
not recording, up to `await getUserMedia`, which leaves a microphone request
pending (the rest runs in `onMicSettled`); when recording, to its end. -/
def handleMicClick (st : State) : State :=
  if !st.isRecording then
    { st with
      errorMessage := ""
      micRequests := st.micRequests ++
        [{ sourceLanguage := st.sourceLanguage
           targetLanguage := st.targetLanguage
           settled := false }] }
  else
    match stopRecorder st.recorders st.mediaRecorder with
    | some recorders => { st with recorders := recorders, isRecording := false }
    | none => { st with errorMessage := speakAgain }

/-- The rest of `handleMicClick` once the microphone request of `call` is
answered: on success the recorder is created, with `onstop` closing over the
languages of `call`, and started; a throw is caught. -/
def onMicSettled (st : State) (call : MicRequest) (mic : MicAccess) : State :=
  match mic with
  | .refused => { st with errorMessage := speakAgain }
  | .granted =>
    let recorder : Recorder :=
      { sourceLanguage := call.sourceLanguage
        targetLanguage := call.targetLanguage
        audioChunks := []
        phase := .recording }
    { st with
      recorders := st.recorders ++ [recorder]
      mediaRecorder := some st.recorders.length
      isRecording := true }

/-- The part of `recorder.onstop` up to the `fetch` call: the form it sends. -/
def onstop (recorder : Recorder) : FormData :=
  let audioBlob : Blob := { content := recorder.audioChunks.flatten, type := "audio/webm" }
  [("file", .blob audioBlob),
   ("source_language", formText (languageCode (some recorder.sourceLanguage))),
   ("target_language", formText (languageCode recorder.targetLanguage))]

/-- The flag `response.ok`. -/
def responseOk (status : Nat) : Bool :=
  200 ≤ status && status ≤ 299

/-- The part of `recorder.onstop` after `await fetch(...)`: `now` is what
`new Date().getTime()` returns should it be asked. -/
def onFetchSettled (st : State) (res : FetchResult) (now : Int) : State :=
  match res with
  | .rejected => { st with errorMessage := speakAgain }
  | .response status json =>
    if !responseOk status then
      if status = 400 then { st with errorMessage := speakAgain }
      else { st with errorMessage := serverError }
    else
      match json with
      | none => { st with errorMessage := speakAgain }
      | some data =>
        if data.isNullish then { st with errorMessage := speakAgain }
        else if (data.prop "error").truthy then { st with errorMessage := speakAgain }
        else
          let st1 :=
            { st with
              originalText := data.prop "original_text"
              translatedText := data.prop "translated_text"
              errorMessage := "" }
          if (data.prop "audio_url").truthy then
            match (data.prop "audio_url").plus "?t=" with
            | some url => { st1 with played := st1.played ++ [url ++ toString now] }
            | none => { st1 with errorMessage := speakAgain }
          else st1

/-! ## Events -/

/-- What can happen to the mounted component. -/
inductive Event where
  | micClick
  | micSettled (k : Nat) (mic : MicAccess)
  | dataavailable (r : Nat) (data : Chunk)
  | stop (r : Nat)
  | fetchSettled (q : Nat) (res : FetchResult) (now : Int)
  | selectSource (value : String)
  | selectTarget (value : String)

/-- One event. A microphone request is answered at most once; a recorder
delivers data until its `stop` event has fired, and fires `stop` once, after
`stop()` was called on it; a request settles once. -/
def step (st : State) : Event → State
  | .micClick => handleMicClick st
  | .micSettled k mic =>
    match st.micRequests[k]? with
    | some call =>
      if call.settled then st
      else
        onMicSettled
          { st with micRequests := st.micRequests.set k { call with settled := true } }
          call mic
    | none => st
  | .dataavailable r data =>
    match st.recorders[r]? with
    | some recorder =>
      if recorder.phase ≠ .inactive then
        { st with recorders := st.recorders.set r (ondataavailable recorder data) }
      else st
    | none => st
  | .stop r =>
    match st.recorders[r]? with
    | some recorder =>
      if recorder.phase = .stopping then
        { st with
          recorders := st.recorders.set r { recorder with phase := .inactive }
          requests := st.requests ++
            [{ formData := onstop recorder, settled := false, recorder := r }] }
      else st
    | none => st
  | .fetchSettled q res now =>
    match st.requests[q]? with
    | some request =>
      if request.settled then st
      else
        onFetchSettled
          { st with requests := st.requests.set q { request with settled := true } } res now
    | none => st
  | .selectSource value => sourceOnValueChange st value
  | .selectTarget value => handleTargetLanguageChange st value

/-- A run of events, oldest first. -/
def run (st : State) (events : List Event) : State :=
  events.foldl step st

/-- A toggle whose microphone request is answered before any other event is
taken: the click and, when the click asked for the microphone, the answer
`mic` to that request. -/
def toggle (st : State) (mic : MicAccess) : State :=
  if st.isRecording then handleMicClick st
  else step (handleMicClick st) (.micSettled st.micRequests.length mic)

/-- A sequence of such toggles, one answer each. -/
def toggles (st : State) (answers : List MicAccess) : State :=
  answers.foldl toggle st

/-- The data one event hands to the `ondataavailable` of recorder `r`. -/
def chunkFor (r : Nat) : Event → Option Chunk
  | .dataavailable r' data => if r' = r then some data else none
  | _ => none

/-- The chunks delivered to recorder `r` during `events`, in arrival order. -/
def deliveredTo (r : Nat) (events : List Event) : List Chunk :=
  events.filterMap (chunkFor r)

/-- How many of the requests sent so far were sent by the `onstop` of
recorder `r`. -/
def requestCount (st : State) (r : Nat) : Nat :=
  (st.requests.map Request.recorder).count r

/-- The results on which `onstop` leaves through one of its error exits
before it has called `setOriginalText`: `fetch` rejects, `!response.ok`,
`response.json()` rejects, reading `data.error` throws, or `data.error` is
truthy. -/
def errorExit : FetchResult → Bool
  | .rejected => true
  | .response status json =>
    !responseOk status ||
      match json with
      | none => true
      | some data => data.isNullish || (data.prop "error").truthy

/-! ## Reachable states and invariants -/

/-- An event the rendered page allows: a selector only reports one of the
items it renders. -/
def Offered (st : State) : Event → Prop
  | .selectSource value => value ∈ sourceChoices st
  | .selectTarget value => value ∈ targetChoices st
  | _ => True

/-- The states reachable from the first render, the selectors being used only
on the items they render. -/
inductive Reachable : State → Prop where
  | init : Reachable init
  | step {st : State} {ev : Event} : Reachable st → Offered st ev → Reachable (step st ev)

/-- The phase of recorder `r`, if it has been created. -/
def phaseOf (st : State) (r : Nat) : Option RecorderPhase :=
  (st.recorders[r]?).map Recorder.phase

/-- Recorder `r` has sent one request if its `onstop` has run, and none
otherwise. -/
def CountInv (st : State) : Prop :=
  ∀ r, requestCount st r = if phaseOf st r = some .inactive then 1 else 0

/-- Every request sent carries the wire codes of the languages its recorder
closes over. -/
def PairInv (st : State) : Prop :=
  ∀ (q : Nat) (request : Request), st.requests[q]? = some request →
    ∃ recorder : Recorder, st.recorders[request.recorder]? = some recorder ∧
      request.formData.lookup "source_language" =
        some (formText (languageCode (some recorder.sourceLanguage))) ∧
      request.formData.lookup "target_language" =
        some (formText (languageCode recorder.targetLanguage))

/-- While `isRecording` is set, `mediaRecorder` is a recorder that is
recording. -/
def RecordingInv (st : State) : Prop :=
  st.isRecording = true →
    ∃ r recorder, st.mediaRecorder = some r ∧ st.recorders[r]? = some recorder ∧
      recorder.phase = .recording

/-! ## Response classification -/

theorem speakAgain_ne_empty : speakAgain ≠ "" := by decide

theorem not_responseOk {status : Nat} (h : ¬ (200 ≤ status ∧ status ≤ 299)) :
    responseOk status = false := by
  unfold responseOk
  by_contra hc
  simp only [Bool.not_eq_false, Bool.and_eq_true, decide_eq_true_eq] at hc
  exact h hc

/-- C1. A response whose status is outside 200-299 sets the error message to
the retry prompt when the status is 400 and to the server-error message for
every other status, and changes nothing else; a rejected `fetch` sets the
retry prompt, which is not the server-error message. -/
theorem response_classification (st : State) (status : Nat) (json : Option JSValue)
    (now : Int) (h : ¬ (200 ≤ status ∧ status ≤ 299)) :
    onFetchSettled st (.response status json) now =
        { st with errorMessage := if status = 400 then speakAgain else serverError } ∧
      onFetchSettled st .rejected now = { st with errorMessage := speakAgain } ∧
      speakAgain = "⚠️ Speak Again..." ∧
      serverError = "⚠️ Server Error, Try Again..." ∧
      speakAgain ≠ serverError := by
  refine ⟨?_, rfl, rfl, rfl, by decide⟩
  simp only [onFetchSettled, not_responseOk h, Bool.not_false, if_true]
  split <;> rfl

theorem response_classification_witness :
    onFetchSettled init (.response 503 none) 0 =
        { init with errorMessage := if 503 = 400 then speakAgain else serverError } ∧
      onFetchSettled init .rejected 0 = { init with errorMessage := speakAgain } ∧
      speakAgain = "⚠️ Speak Again..." ∧
      serverError = "⚠️ Server Error, Try Again..." ∧
      speakAgain ≠ serverError :=
  response_classification init 503 none 0 (by decide)

/-- C2, as stated, fails: a 200 body carrying `error: false` next to the texts
is handled as a success (message cleared, texts taken from the body, audio
played), while the 400 case shows the retry prompt and keeps the old texts. -/
theorem falsy_error_field_counterexample :
    JSValue.lookupLast "error"
        [("error", .bool false), ("original_text", .str "hi"),
         ("translated_text", .str "नमस्ते"), ("audio_url", .str "https://x/a.mp3")] =
        some (.bool false) ∧
      (onFetchSettled init (.response 200 (some (.obj
        [("error", .bool false), ("original_text", .str "hi"),
         ("translated_text", .str "नमस्ते"), ("audio_url", .str "https://x/a.mp3")]))) 5).errorMessage
        = "" ∧
      (onFetchSettled init (.response 200 (some (.obj
        [("error", .bool false), ("original_text", .str "hi"),
         ("translated_text", .str "नमस्ते"), ("audio_url", .str "https://x/a.mp3")]))) 5).originalText
        = .str "hi" ∧
      (onFetchSettled init (.response 200 (some (.obj
        [("error", .bool false), ("original_text", .str "hi"),
         ("translated_text", .str "नमस्ते"), ("audio_url", .str "https://x/a.mp3")]))) 5).translatedText
        = .str "नमस्ते" ∧
      (onFetchSettled init (.response 200 (some (.obj
        [("error", .bool false), ("original_text", .str "hi"),
         ("translated_text", .str "नमस्ते"), ("audio_url", .str "https://x/a.mp3")]))) 5).played
        = ["https://x/a.mp3?t=5"] ∧
      (onFetchSettled init (.response 400 none) 5).errorMessage = "⚠️ Speak Again..." ∧
      (onFetchSettled init (.response 400 none) 5).originalText = .str "" ∧
      (onFetchSettled init (.response 400 none) 5).played = [] := by
  refine ⟨rfl, rfl, rfl, rfl, rfl, rfl, rfl, rfl⟩

/-- C2, amended. A 2xx response whose body is an object with a truthy top-level
`error` field ends exactly as the 400 case: the retry prompt is shown and
nothing else changes (texts kept, nothing played). -/
theorem truthy_error_field_is_soft_failure (st : State) (status : Nat)
    (props : List (String × JSValue)) (v : JSValue) (now : Int)
    (hok : 200 ≤ status ∧ status ≤ 299)
    (hv : JSValue.lookupLast "error" props = some v) (ht : v.truthy = true) :
    onFetchSettled st (.response status (some (.obj props))) now =
        onFetchSettled st (.response 400 none) now ∧
      onFetchSettled st (.response status (some (.obj props))) now =
        { st with errorMessage := speakAgain } := by
  have hok2 : responseOk status = true := by
    simp [responseOk, hok.1, hok.2]
  have herr : ((JSValue.obj props).prop "error").truthy = true := by
    simp [JSValue.prop, hv, ht]
  have h400 : responseOk 400 = false := by decide
  constructor <;>
    simp [onFetchSettled, hok2, herr, JSValue.isNullish, h400]

theorem truthy_error_field_is_soft_failure_witness :
    onFetchSettled init (.response 200 (some (.obj [("error", .str "no speech")]))) 0 =
        onFetchSettled init (.response 400 none) 0 ∧
      onFetchSettled init (.response 200 (some (.obj [("error", .str "no speech")]))) 0 =
        { init with errorMessage := speakAgain } :=
  truthy_error_field_is_soft_failure init 200 [("error", .str "no speech")]
    (.str "no speech") 0 (by decide) rfl (by decide)

/-- C3, as stated, fails: a 200 body without `error` whose `audio_url` is
present but is the empty string triggers no playback. -/
theorem empty_audio_url_counterexample :
    JSValue.lookupLast "error"
        [("original_text", .str "hi"), ("translated_text", .str "नमस्ते"),
         ("audio_url", .str "")] = none ∧
      JSValue.lookupLast "audio_url"
        [("original_text", .str "hi"), ("translated_text", .str "नमस्ते"),
         ("audio_url", .str "")] = some (.str "") ∧
      (onFetchSettled init (.response 200 (some (.obj
        [("original_text", .str "hi"), ("translated_text", .str "नमस्ते"),
         ("audio_url", .str "")]))) 5).originalText = .str "hi" ∧
      (onFetchSettled init (.response 200 (some (.obj
        [("original_text", .str "hi"), ("translated_text", .str "नमस्ते"),
         ("audio_url", .str "")]))) 5).played = [] := by
  refine ⟨rfl, rfl, rfl, rfl⟩

/-- C3, amended. For a 2xx response whose body is an object with no `error`
field, the original and translated text become the body's `original_text` and
`translated_text`; when `audio_url` is absent or falsy the message is cleared
and nothing is played; when `audio_url` is a non-empty string the message is
cleared and exactly one URL is played, `audio_url` followed by `?t=` and the
timestamp in decimal. -/
theorem success_updates_texts_and_plays (st : State) (status : Nat)
    (props : List (String × JSValue)) (now : Int)
    (hok : 200 ≤ status ∧ status ≤ 299)
    (herr : JSValue.lookupLast "error" props = none) :
    (onFetchSettled st (.response status (some (.obj props))) now).originalText =
        (JSValue.obj props).prop "original_text" ∧
      (onFetchSettled st (.response status (some (.obj props))) now).translatedText =
        (JSValue.obj props).prop "translated_text" ∧
      (((JSValue.obj props).prop "audio_url").truthy = false →
        onFetchSettled st (.response status (some (.obj props))) now =
          { st with
            originalText := (JSValue.obj props).prop "original_text"
            translatedText := (JSValue.obj props).prop "translated_text"
            errorMessage := "" }) ∧
      (∀ url : String, (JSValue.obj props).prop "audio_url" = .str url → url ≠ "" →
        onFetchSettled st (.response status (some (.obj props))) now =
          { st with
            originalText := (JSValue.obj props).prop "original_text"
            translatedText := (JSValue.obj props).prop "translated_text"
            errorMessage := ""
            played := st.played ++ [url ++ "?t=" ++ toString now] }) := by
  have hok2 : responseOk status = true := by
    simp [responseOk, hok.1, hok.2]
  have herr2 : ((JSValue.obj props).prop "error").truthy = false := by
    simp [JSValue.prop, herr, JSValue.truthy]
  refine ⟨?_, ?_, ?_, ?_⟩
  · simp only [onFetchSettled, hok2, herr2, JSValue.isNullish]
    simp only [Bool.not_true, Bool.false_eq_true, if_false]
    split
    · split <;> rfl
    · rfl
  · simp only [onFetchSettled, hok2, herr2, JSValue.isNullish]
    simp only [Bool.not_true, Bool.false_eq_true, if_false]
    split
    · split <;> rfl
    · rfl
  · intro hfalse
    simp [onFetchSettled, hok2, herr2, JSValue.isNullish, hfalse]
  · intro url hurl hne
    have htruthy : ((JSValue.obj props).prop "audio_url").truthy = true := by
      rw [hurl]
      simp [JSValue.truthy, hne]
    simp [onFetchSettled, hok2, herr2, JSValue.isNullish, htruthy]
    rw [hurl]
    simp [JSValue.plus, JSValue.toStr, String.append_assoc]

theorem success_updates_texts_and_plays_witness :
    (onFetchSettled init (.response 200 (some (.obj
        [("original_text", .str "hi"), ("translated_text", .str "नमस्ते"),
         ("audio_url", .str "https://x/a.mp3")]))) 1700000000000).played =
      ["https://x/a.mp3?t=1700000000000"] := by
  have h := (success_updates_texts_and_plays init 200
    [("original_text", .str "hi"), ("translated_text", .str "नमस्ते"),
     ("audio_url", .str "https://x/a.mp3")] 1700000000000 (by decide) rfl).2.2.2
    "https://x/a.mp3" rfl (by decide)
  rw [h]
  rfl

/-! ## Language pair -/

theorem find_other_language (c : String) :
    languageKeys.find? (fun lang => lang != c) =
      some (if c = "english" then "hindi" else "english") := by
  by_cases h : c = "english"
  · subst h
    decide
  · have h2 : ("english" != c) = true := by
      simp only [bne_iff_ne, ne_eq]
      exact fun e => h e.symm
    simp [languageKeys, languageMap, List.find?, h2, h]

/-- C7. Selecting `c` as source sets the source to `c`. If `c` is the current
target, the target becomes the first key of `languageMap` that is not `c`:
that key exists, is "hindi" when `c` is "english" and "english" otherwise,
differs from `c`, and every key listed before it equals `c`. If `c` is not the
current target, the target is unchanged. -/
theorem select_source_reassigns_target (st : State) (c : String) :
    (sourceOnValueChange st c).sourceLanguage = c ∧
      (st.targetLanguage = some c →
        (sourceOnValueChange st c).targetLanguage =
            some (if c = "english" then "hindi" else "english") ∧
          (sourceOnValueChange st c).targetLanguage =
            languageKeys.find? (fun lang => lang != c) ∧
          (sourceOnValueChange st c).targetLanguage ≠ some c ∧
          ∃ t before after, (sourceOnValueChange st c).targetLanguage = some t ∧
            t ≠ c ∧ languageKeys = before ++ t :: after ∧ ∀ x ∈ before, x = c) ∧
      (st.targetLanguage ≠ some c →
        (sourceOnValueChange st c).targetLanguage = st.targetLanguage) := by
  refine ⟨?_, ?_, ?_⟩
  · unfold sourceOnValueChange handleSourceLanguageChange
    split <;> rfl
  · intro ht
    have hset : (sourceOnValueChange st c).targetLanguage =
        languageKeys.find? (fun lang => lang != c) := by
      simp [sourceOnValueChange, handleSourceLanguageChange, ht]
    rw [hset, find_other_language]
    refine ⟨rfl, rfl, ?_, ?_⟩
    · by_cases h : c = "english"
      · subst h
        decide
      · simp only [h, if_false, ne_eq, Option.some.injEq]
        exact fun e => h e.symm
    · by_cases h : c = "english"
      · subst h
        exact ⟨"hindi", ["english"], _, rfl, by decide, rfl, by simp⟩
      · refine ⟨"english", [], _, by simp [h], fun e => h e.symm, rfl, by simp⟩
  · intro ht
    have hne : ¬ (some c = st.targetLanguage) := fun e => ht e.symm
    simp [sourceOnValueChange, handleSourceLanguageChange, hne]

theorem select_source_reassigns_target_witness :
    (sourceOnValueChange init "hindi").sourceLanguage = "hindi" ∧
      (sourceOnValueChange init "hindi").targetLanguage = some "english" ∧
      (sourceOnValueChange init "tamil").targetLanguage = some "hindi" :=
  ⟨(select_source_reassigns_target init "hindi").1,
    ((select_source_reassigns_target init "hindi").2.1 rfl).1,
    (select_source_reassigns_target init "tamil").2.2 (by decide)⟩

theorem onFetchSettled_frame (st : State) (res : FetchResult) (now : Int) :
    (onFetchSettled st res now).sourceLanguage = st.sourceLanguage ∧
      (onFetchSettled st res now).targetLanguage = st.targetLanguage ∧
      (onFetchSettled st res now).isRecording = st.isRecording ∧
      (onFetchSettled st res now).mediaRecorder = st.mediaRecorder ∧
      (onFetchSettled st res now).recorders = st.recorders ∧
      (onFetchSettled st res now).requests = st.requests ∧
      (onFetchSettled st res now).micRequests = st.micRequests := by
  unfold onFetchSettled
  repeat' (first | (refine ⟨rfl, rfl, rfl, rfl, rfl, rfl, rfl⟩) | split)

theorem handleMicClick_languages (st : State) :
    (handleMicClick st).sourceLanguage = st.sourceLanguage ∧
      (handleMicClick st).targetLanguage = st.targetLanguage := by
  unfold handleMicClick
  repeat' (first | (refine ⟨rfl, rfl⟩) | split)

theorem step_micSettled_eq (st : State) (k : Nat) (mic : MicAccess) :
    step st (.micSettled k mic) = st ∨
      ∃ call, st.micRequests[k]? = some call ∧ call.settled = false ∧
        step st (.micSettled k mic) =
          onMicSettled
            { st with micRequests := st.micRequests.set k { call with settled := true } }
            call mic := by
  cases hcur : st.micRequests[k]? with
  | none => left; simp [step, hcur]
  | some call =>
    cases hs : call.settled with
    | true => left; simp [step, hcur, hs]
    | false => right; exact ⟨call, rfl, hs, by simp [step, hcur, hs]⟩

theorem step_fetchSettled_eq (st : State) (q : Nat) (res : FetchResult) (now : Int) :
    step st (.fetchSettled q res now) = st ∨
      ∃ request, st.requests[q]? = some request ∧ request.settled = false ∧
        step st (.fetchSettled q res now) =
          onFetchSettled
            { st with requests := st.requests.set q { request with settled := true } }
            res now := by
  cases hcur : st.requests[q]? with
  | none => left; simp [step, hcur]
  | some request =>
    cases hs : request.settled with
    | true => left; simp [step, hcur, hs]
    | false => right; exact ⟨request, rfl, hs, by simp [step, hcur, hs]⟩

theorem step_languages (st : State) (ev : Event)
    (hs : ∀ value, ev ≠ .selectSource value) (ht : ∀ value, ev ≠ .selectTarget value) :
    (step st ev).sourceLanguage = st.sourceLanguage ∧
      (step st ev).targetLanguage = st.targetLanguage := by
  cases ev with
  | micClick => exact handleMicClick_languages st
  | micSettled k mic =>
    rcases step_micSettled_eq st k mic with h | ⟨call, _, _, h⟩
    · rw [h]; exact ⟨rfl, rfl⟩
    · rw [h]
      cases mic <;> exact ⟨rfl, rfl⟩
  | dataavailable r data =>
    simp only [step]
    repeat' (first | (refine ⟨rfl, rfl⟩) | split)
  | stop r =>
    simp only [step]
    repeat' (first | (refine ⟨rfl, rfl⟩) | split)
  | fetchSettled q res now =>
    rcases step_fetchSettled_eq st q res now with h | ⟨request, _, _, h⟩
    · rw [h]; exact ⟨rfl, rfl⟩
    · rw [h]
      exact ⟨(onFetchSettled_frame _ res now).1, (onFetchSettled_frame _ res now).2.1⟩
  | selectSource value => exact absurd rfl (hs value)
  | selectTarget value => exact absurd rfl (ht value)

theorem sourceOnValueChange_target_ne (st : State) (value : String) :
    (sourceOnValueChange st value).targetLanguage ≠
      some (sourceOnValueChange st value).sourceLanguage := by
  unfold sourceOnValueChange handleSourceLanguageChange
  split
  · simp only [find_other_language]
    by_cases h : value = "english"
    · subst h
      decide
    · simp only [h, if_false, ne_eq, Option.some.injEq]
      exact fun e => h e.symm
  · rename_i hne
    exact fun e => hne e.symm

theorem mem_targetChoices {st : State} {value : String} (h : value ∈ targetChoices st) :
    value ∈ languageKeys ∧ value ≠ st.sourceLanguage := by
  unfold targetChoices at h
  simpa using h

/-- C8. In every state reachable from the first render (source "english",
target "hindi") by any events, each source selection being any key of
`languageMap` and each target selection one of the items the target selector
renders (a key other than the current source), the target differs from the
source. -/
theorem source_ne_target_invariant (st : State) (h : Reachable st) :
    st.targetLanguage ≠ some st.sourceLanguage := by
  induction h with
  | init => decide
  | @step st ev _ hoff ih =>
    cases ev with
    | selectSource value => exact sourceOnValueChange_target_ne st value
    | selectTarget value =>
      have hm := mem_targetChoices hoff
      simp only [step, handleTargetLanguageChange, ne_eq, Option.some.injEq]
      exact hm.2
    | micClick =>
      have hl := step_languages st .micClick (by simp) (by simp)
      rw [hl.1, hl.2]; exact ih
    | micSettled k mic =>
      have hl := step_languages st (.micSettled k mic) (by simp) (by simp)
      rw [hl.1, hl.2]; exact ih
    | dataavailable r data =>
      have hl := step_languages st (.dataavailable r data) (by simp) (by simp)
      rw [hl.1, hl.2]; exact ih
    | stop r =>
      have hl := step_languages st (.stop r) (by simp) (by simp)
      rw [hl.1, hl.2]; exact ih
    | fetchSettled q res now =>
      have hl := step_languages st (.fetchSettled q res now) (by simp) (by simp)
      rw [hl.1, hl.2]; exact ih

theorem source_ne_target_invariant_witness :
    (step (step init (.selectSource "hindi")) (.selectTarget "tamil")).targetLanguage ≠
      some (step (step init (.selectSource "hindi")) (.selectTarget "tamil")).sourceLanguage :=
  source_ne_target_invariant _
    (Reachable.step (Reachable.step Reachable.init (by decide : "hindi" ∈ languageKeys))
      (by decide : "tamil" ∈ targetChoices (step init (.selectSource "hindi"))))

/-! ## Recorders along a run -/

theorem getElem?_set_of_some {α : Type} {l : List α} {i : Nat} {x : α} (a : α)
    (h : l[i]? = some x) (j : Nat) :
    (l.set i a)[j]? = if i = j then some a else l[j]? := by
  have hi : i < l.length := (List.getElem?_eq_some.1 h).1
  rw [List.getElem?_set]
  simp [hi]

theorem run_cons (st : State) (ev : Event) (events : List Event) :
    run st (ev :: events) = run (step st ev) events := rfl

theorem run_append (st : State) (xs ys : List Event) :
    run st (xs ++ ys) = run (run st xs) ys := by
  simp [run, List.foldl_append]

theorem handleMicClick_idle (st : State) (hidle : st.isRecording = false) :
    handleMicClick st =
      { st with
        errorMessage := ""
        micRequests := st.micRequests ++
          [{ sourceLanguage := st.sourceLanguage
             targetLanguage := st.targetLanguage
             settled := false }] } := by
  simp [handleMicClick, hidle]

theorem handleMicClick_stop (st : State) (r : Nat) (recorder : Recorder)
    (hrec : st.isRecording = true) (hm : st.mediaRecorder = some r)
    (h : st.recorders[r]? = some recorder) (hph : recorder.phase = .recording) :
    handleMicClick st =
      { st with
        recorders := st.recorders.set r { recorder with phase := .stopping }
        isRecording := false } := by
  simp [handleMicClick, stopRecorder, hrec, hm, h, hph]

theorem step_micSettled_granted (st : State) (k : Nat) (call : MicRequest)
    (hk : st.micRequests[k]? = some call) (hs : call.settled = false) :
    step st (.micSettled k .granted) =
      { st with
        micRequests := st.micRequests.set k { call with settled := true }
        recorders := st.recorders ++
          [{ sourceLanguage := call.sourceLanguage
             targetLanguage := call.targetLanguage
             audioChunks := []
             phase := .recording }]
        mediaRecorder := some st.recorders.length
        isRecording := true } := by
  simp [step, hk, hs, onMicSettled]

theorem step_micSettled_refused (st : State) (k : Nat) (call : MicRequest)
    (hk : st.micRequests[k]? = some call) (hs : call.settled = false) :
    step st (.micSettled k .refused) =
      { st with
        micRequests := st.micRequests.set k { call with settled := true }
        errorMessage := speakAgain } := by
  simp [step, hk, hs, onMicSettled]

theorem handleMicClick_tracks (st : State) (r : Nat) (recorder : Recorder)
    (h : st.recorders[r]? = some recorder) (hph : recorder.phase ≠ .inactive) :
    ∃ ph, (handleMicClick st).recorders[r]? = some { recorder with phase := ph } ∧
      ph ≠ .inactive ∧ (recorder.phase = .stopping → ph = .stopping) := by
  unfold handleMicClick stopRecorder
  cases hrec : st.isRecording with
  | false => exact ⟨recorder.phase, by simpa using h, hph, fun e => e⟩
  | true =>
    cases hm : st.mediaRecorder with
    | none => exact ⟨recorder.phase, by simpa using h, hph, fun e => e⟩
    | some m =>
      cases hcur : st.recorders[m]? with
      | none => exact ⟨recorder.phase, by simpa [hcur] using h, hph, fun e => e⟩
      | some current =>
        by_cases hp : current.phase = .recording
        · by_cases hmr : m = r
          · subst hmr
            rw [h] at hcur
            simp only [Option.some.injEq] at hcur
            subst hcur
            refine ⟨.stopping, ?_, by decide, fun _ => rfl⟩
            simp [h, hp, getElem?_set_of_some _ h]
          · refine ⟨recorder.phase, ?_, hph, fun e => e⟩
            simp [hcur, hp, List.getElem?_set_ne hmr, h]
        · exact ⟨recorder.phase, by simpa [hcur, hp] using h, hph, fun e => e⟩

theorem step_micSettled_recorders (st : State) (k : Nat) (mic : MicAccess) (r : Nat)
    (recorder : Recorder) (h : st.recorders[r]? = some recorder) :
    (step st (.micSettled k mic)).recorders[r]? = some recorder := by
  have hr : r < st.recorders.length := (List.getElem?_eq_some.1 h).1
  rcases step_micSettled_eq st k mic with he | ⟨call, _, _, he⟩
  · rw [he]; exact h
  · rw [he]
    cases mic with
    | refused => exact h
    | granted =>
      simp only [onMicSettled, List.getElem?_append_left hr]
      exact h

theorem step_tracks (st : State) (ev : Event) (r : Nat) (recorder : Recorder)
    (h : st.recorders[r]? = some recorder) (hph : recorder.phase ≠ .inactive)
    (hev : ev ≠ .stop r) :
    ∃ ph, (step st ev).recorders[r]? =
        some { recorder with
          audioChunks := recorder.audioChunks ++ (chunkFor r ev).toList
          phase := ph } ∧
      ph ≠ .inactive ∧ (recorder.phase = .stopping → ph = .stopping) ∧
      (ev ≠ .micClick → ph = recorder.phase) := by
  cases ev with
  | micClick =>
    obtain ⟨ph, h1, h2, h3⟩ := handleMicClick_tracks st r recorder h hph
    refine ⟨ph, ?_, h2, h3, fun hm => absurd rfl hm⟩
    simpa [step, chunkFor] using h1
  | micSettled k mic =>
    refine ⟨recorder.phase, ?_, hph, fun e => e, fun _ => rfl⟩
    rw [step_micSettled_recorders st k mic r recorder h]
    simp [chunkFor]
  | dataavailable r' data =>
    by_cases hr : r' = r
    · subst hr
      refine ⟨recorder.phase, ?_, hph, fun e => e, fun _ => rfl⟩
      simp [step, h, hph, chunkFor, ondataavailable, getElem?_set_of_some _ h]
    · refine ⟨recorder.phase, ?_, hph, fun e => e, fun _ => rfl⟩
      simp only [step, chunkFor, hr, if_false, Option.toList, List.append_nil]
      split
      · split
        · simp only [List.getElem?_set_ne hr]
          exact h
        · exact h
      · exact h
  | stop r' =>
    have hr : r' ≠ r := fun e => hev (by rw [e])
    refine ⟨recorder.phase, ?_, hph, fun e => e, fun _ => rfl⟩
    simp only [step, chunkFor, Option.toList, List.append_nil]
    split
    · split
      · simp only [List.getElem?_set_ne hr]
        exact h
      · exact h
    · exact h
  | fetchSettled q res now =>
    refine ⟨recorder.phase, ?_, hph, fun e => e, fun _ => rfl⟩
    simp only [chunkFor, Option.toList, List.append_nil]
    rcases step_fetchSettled_eq st q res now with he | ⟨request, _, _, he⟩
    · rw [he]; exact h
    · rw [he, (onFetchSettled_frame _ res now).2.2.2.2.1]
      exact h
  | selectSource value =>
    refine ⟨recorder.phase, ?_, hph, fun e => e, fun _ => rfl⟩
    simp only [step, chunkFor, Option.toList, List.append_nil, sourceOnValueChange,
      handleSourceLanguageChange]
    split <;> exact h
  | selectTarget value =>
    exact ⟨recorder.phase, by simpa [step, chunkFor, handleTargetLanguageChange] using h,
      hph, fun e => e, fun _ => rfl⟩

theorem run_tracks (r : Nat) (events : List Event) :
    ∀ (st : State) (recorder : Recorder), st.recorders[r]? = some recorder →
      recorder.phase ≠ .inactive → (∀ ev ∈ events, ev ≠ .stop r) →
      ∃ ph, (run st events).recorders[r]? =
          some { recorder with
            audioChunks := recorder.audioChunks ++ deliveredTo r events
            phase := ph } ∧
        ph ≠ .inactive ∧ (recorder.phase = .stopping → ph = .stopping) ∧
        ((∀ ev ∈ events, ev ≠ .micClick) → ph = recorder.phase) := by
  induction events with
  | nil =>
    intro st recorder h hph _
    exact ⟨recorder.phase, by simpa [run, deliveredTo] using h, hph, fun e => e, fun _ => rfl⟩
  | cons ev rest ih =>
    intro st recorder h hph hno
    obtain ⟨ph1, h1, hne1, hstop1, hsame1⟩ :=
      step_tracks st ev r recorder h hph (hno ev (List.mem_cons_self _ _))
    obtain ⟨ph2, h2, hne2, hstop2, hsame2⟩ :=
      ih (step st ev) _ h1 hne1 (fun e he => hno e (List.mem_cons_of_mem _ he))
    refine ⟨ph2, ?_, hne2, fun e => hstop2 (hstop1 e), ?_⟩
    · rw [run_cons, h2]
      cases hc : chunkFor r ev <;>
        simp [deliveredTo, List.filterMap_cons, hc]
    · intro hmic
      have ha := hsame1 (hmic ev (List.mem_cons_self _ _))
      have hb := hsame2 (fun e he => hmic e (List.mem_cons_of_mem _ he))
      rw [hb]
      exact ha

theorem step_recording_frame (st : State) (ev : Event) (hclick : ev ≠ .micClick)
    (hgrant : ∀ k, ev ≠ .micSettled k .granted) :
    (step st ev).isRecording = st.isRecording ∧
      (step st ev).mediaRecorder = st.mediaRecorder := by
  cases ev with
  | micClick => exact absurd rfl hclick
  | micSettled k mic =>
    cases mic with
    | granted => exact absurd rfl (hgrant k)
    | refused =>
      rcases step_micSettled_eq st k .refused with he | ⟨call, _, _, he⟩
      · rw [he]; exact ⟨rfl, rfl⟩
      · rw [he]; exact ⟨rfl, rfl⟩
  | dataavailable r data =>
    simp only [step]
    repeat' (first | (refine ⟨rfl, rfl⟩) | split)
  | stop r =>
    simp only [step]
    repeat' (first | (refine ⟨rfl, rfl⟩) | split)
  | fetchSettled q res now =>
    rcases step_fetchSettled_eq st q res now with he | ⟨request, _, _, he⟩
    · rw [he]; exact ⟨rfl, rfl⟩
    · rw [he]
      exact ⟨(onFetchSettled_frame _ res now).2.2.1, (onFetchSettled_frame _ res now).2.2.2.1⟩
  | selectSource value =>
    simp only [step, sourceOnValueChange, handleSourceLanguageChange]
    split <;> exact ⟨rfl, rfl⟩
  | selectTarget value => exact ⟨rfl, rfl⟩

theorem run_recording_frame (events : List Event) :
    ∀ (st : State), (∀ ev ∈ events, ev ≠ .micClick ∧ ∀ k, ev ≠ .micSettled k .granted) →
      (run st events).isRecording = st.isRecording ∧
        (run st events).mediaRecorder = st.mediaRecorder := by
  induction events with
  | nil => intro st _; exact ⟨rfl, rfl⟩
  | cons ev rest ih =>
    intro st hno
    have h0 := hno ev (List.mem_cons_self _ _)
    have h1 := step_recording_frame st ev h0.1 h0.2
    have h2 := ih (step st ev) (fun e he => hno e (List.mem_cons_of_mem _ he))
    rw [run_cons, h2.1, h2.2]
    exact h1

theorem session_recorder (st : State) (k : Nat) (call : MicRequest)
    (hk : st.micRequests[k]? = some call) (hs : call.settled = false)
    (evs1 evs2 : List Event)
    (h1 : ∀ ev ∈ evs1, ev ≠ .stop st.recorders.length ∧ ev ≠ .micClick ∧
      ∀ j, ev ≠ .micSettled j .granted)
    (h2 : ∀ ev ∈ evs2, ev ≠ .stop st.recorders.length) :
    (run (step st (.micSettled k .granted)) (evs1 ++ .micClick :: evs2)).recorders[
        st.recorders.length]? =
      some
        { sourceLanguage := call.sourceLanguage
          targetLanguage := call.targetLanguage
          audioChunks := deliveredTo st.recorders.length (evs1 ++ evs2)
          phase := .stopping } := by
  have hstart := step_micSettled_granted st k call hk hs
  have hnew : (step st (.micSettled k .granted)).recorders[st.recorders.length]? =
      some { sourceLanguage := call.sourceLanguage, targetLanguage := call.targetLanguage,
             audioChunks := [], phase := .recording } := by
    rw [hstart]
    exact List.getElem?_concat_length _ _
  obtain ⟨ph1, ha, _, _, hsame1⟩ :=
    run_tracks st.recorders.length evs1 (step st (.micSettled k .granted)) _ hnew (by simp)
      (fun ev he => (h1 ev he).1)
  have hph1 := hsame1 (fun ev he => (h1 ev he).2.1)
  simp only at hph1
  subst hph1
  have hfr := run_recording_frame evs1 (step st (.micSettled k .granted))
    (fun ev he => (h1 ev he).2)
  have hrec : (run (step st (.micSettled k .granted)) evs1).isRecording = true := by
    rw [hfr.1, hstart]
  have hmr : (run (step st (.micSettled k .granted)) evs1).mediaRecorder =
      some st.recorders.length := by
    rw [hfr.2, hstart]
  have hstop := handleMicClick_stop (run (step st (.micSettled k .granted)) evs1)
    st.recorders.length _ hrec hmr ha rfl
  have hb : (step (run (step st (.micSettled k .granted)) evs1) .micClick).recorders[
      st.recorders.length]? =
      some { sourceLanguage := call.sourceLanguage, targetLanguage := call.targetLanguage,
             audioChunks := deliveredTo st.recorders.length evs1, phase := .stopping } := by
    have hstep : step (run (step st (.micSettled k .granted)) evs1) .micClick =
        handleMicClick (run (step st (.micSettled k .granted)) evs1) := rfl
    rw [hstep, hstop]
    simp [getElem?_set_of_some _ ha]
  obtain ⟨ph2, hc, _, hkeep, _⟩ :=
    run_tracks st.recorders.length evs2 _ _ hb (by simp) h2
  have hph2 := hkeep rfl
  subst hph2
  rw [run_append, run_cons, hc]
  simp [deliveredTo, List.filterMap_append]

theorem step_stop_stopping (st : State) (r : Nat) (recorder : Recorder)
    (h : st.recorders[r]? = some recorder) (hp : recorder.phase = .stopping) :
    step st (.stop r) =
      { st with
        recorders := st.recorders.set r { recorder with phase := .inactive }
        requests := st.requests ++
          [{ formData := onstop recorder, settled := false, recorder := r }] } := by
  simp [step, h, hp]

theorem session_request (st : State) (k : Nat) (call : MicRequest)
    (hk : st.micRequests[k]? = some call) (hs : call.settled = false)
    (evs1 evs2 : List Event)
    (h1 : ∀ ev ∈ evs1, ev ≠ .stop st.recorders.length ∧ ev ≠ .micClick ∧
      ∀ j, ev ≠ .micSettled j .granted)
    (h2 : ∀ ev ∈ evs2, ev ≠ .stop st.recorders.length) :
    (step (run (step st (.micSettled k .granted)) (evs1 ++ .micClick :: evs2))
        (.stop st.recorders.length)).requests =
      (run (step st (.micSettled k .granted)) (evs1 ++ .micClick :: evs2)).requests ++
        [{ formData :=
             [("file", .blob
                { content := (deliveredTo st.recorders.length (evs1 ++ evs2)).flatten
                  type := "audio/webm" }),
              ("source_language", formText (languageCode (some call.sourceLanguage))),
              ("target_language", formText (languageCode call.targetLanguage))]
           settled := false
           recorder := st.recorders.length }] := by
  have h := session_recorder st k call hk hs evs1 evs2 h1 h2
  rw [step_stop_stopping _ _ _ h rfl]
  simp [onstop]

/-! ## The recording toggle -/

theorem step_recordingInv (st : State) (ev : Event) (h : RecordingInv st) :
    RecordingInv (step st ev) := by
  by_cases hclick : ev = .micClick
  · subst hclick
    intro hrec
    cases hidle : st.isRecording with
    | false =>
      simp only [step] at hrec
      rw [handleMicClick_idle st hidle] at hrec
      exact absurd hrec (by simp [hidle])
    | true =>
      obtain ⟨r, recorder, hm, hr, hph⟩ := h hidle
      simp only [step] at hrec
      rw [handleMicClick_stop st r recorder hidle hm hr hph] at hrec
      simp at hrec
  · by_cases hgrant : ∃ k, ev = .micSettled k .granted
    · obtain ⟨k, rfl⟩ := hgrant
      rcases step_micSettled_eq st k .granted with he | ⟨call, hk, hs, _⟩
      · rw [he]; exact h
      · rw [step_micSettled_granted st k call hk hs]
        intro _
        exact ⟨st.recorders.length,
          { sourceLanguage := call.sourceLanguage, targetLanguage := call.targetLanguage,
            audioChunks := [], phase := .recording },
          rfl, List.getElem?_concat_length _ _, rfl⟩
    · have hno : ∀ k, ev ≠ .micSettled k .granted := fun k e => hgrant ⟨k, e⟩
      have hfr := step_recording_frame st ev hclick hno
      intro hrec
      rw [hfr.1] at hrec
      obtain ⟨r, recorder, hm, hr, hph⟩ := h hrec
      by_cases hstop : ev = .stop r
      · subst hstop
        refine ⟨r, recorder, ?_, ?_, hph⟩
        · rw [hfr.2]; exact hm
        · simp [step, hr, hph]
      · obtain ⟨ph, hrec', _, _, hsame⟩ :=
          step_tracks st ev r recorder hr (by rw [hph]; decide) hstop
        refine ⟨r, _, ?_, hrec', ?_⟩
        · rw [hfr.2]; exact hm
        · rw [hsame hclick]; exact hph

theorem run_recordingInv (events : List Event) :
    ∀ st, RecordingInv st → RecordingInv (run st events) := by
  induction events with
  | nil => intro st h; exact h
  | cons ev rest ih => intro st h; exact ih _ (step_recordingInv st ev h)

theorem init_recordingInv : RecordingInv init := by
  intro h
  exact absurd h (by decide)

theorem toggle_idle_granted (st : State) (hidle : st.isRecording = false) :
    toggle st .granted =
      { st with
        errorMessage := ""
        micRequests := (st.micRequests ++
          [({ sourceLanguage := st.sourceLanguage
              targetLanguage := st.targetLanguage
              settled := false } : MicRequest)]).set st.micRequests.length
          { sourceLanguage := st.sourceLanguage
            targetLanguage := st.targetLanguage
            settled := true }
        recorders := st.recorders ++
          [{ sourceLanguage := st.sourceLanguage
             targetLanguage := st.targetLanguage
             audioChunks := []
             phase := .recording }]
        mediaRecorder := some st.recorders.length
        isRecording := true } := by
  have hstep := step_micSettled_granted (handleMicClick st) st.micRequests.length
    ({ sourceLanguage := st.sourceLanguage, targetLanguage := st.targetLanguage,
       settled := false } : MicRequest)
    (by rw [handleMicClick_idle st hidle]; exact List.getElem?_concat_length _ _) rfl
  unfold toggle
  simp only [hidle, Bool.false_eq_true, if_false]
  rw [hstep, handleMicClick_idle st hidle]

theorem toggle_idle_refused (st : State) (hidle : st.isRecording = false) :
    toggle st .refused =
      { st with
        errorMessage := speakAgain
        micRequests := (st.micRequests ++
          [({ sourceLanguage := st.sourceLanguage
              targetLanguage := st.targetLanguage
              settled := false } : MicRequest)]).set st.micRequests.length
          { sourceLanguage := st.sourceLanguage
            targetLanguage := st.targetLanguage
            settled := true } } := by
  have hstep := step_micSettled_refused (handleMicClick st) st.micRequests.length
    ({ sourceLanguage := st.sourceLanguage, targetLanguage := st.targetLanguage,
       settled := false } : MicRequest)
    (by rw [handleMicClick_idle st hidle]; exact List.getElem?_concat_length _ _) rfl
  unfold toggle
  simp only [hidle, Bool.false_eq_true, if_false]
  rw [hstep, handleMicClick_idle st hidle]
  simp [hidle]

theorem toggle_recordingInv (st : State) (mic : MicAccess) (h : RecordingInv st) :
    RecordingInv (toggle st mic) := by
  unfold toggle
  split
  · exact step_recordingInv st .micClick h
  · exact step_recordingInv _ _ (step_recordingInv st .micClick h)

theorem toggles_recordingInv (answers : List MicAccess) :
    ∀ st, RecordingInv st → RecordingInv (toggles st answers) := by
  induction answers with
  | nil => intro st h; exact h
  | cons mic rest ih => intro st h; exact ih _ (toggle_recordingInv st mic h)

theorem handleMicClick_recording (st : State) (h : RecordingInv st)
    (hrec : st.isRecording = true) : (handleMicClick st).isRecording = false := by
  obtain ⟨r, recorder, hm, hr, hph⟩ := h hrec
  rw [handleMicClick_stop st r recorder hrec hm hr hph]

theorem toggle_flips (st : State) (h : RecordingInv st) :
    (toggle st .granted).isRecording = !st.isRecording := by
  cases hrec : st.isRecording with
  | false => rw [toggle_idle_granted st hrec]; rfl
  | true =>
    unfold toggle
    simp only [hrec, if_true]
    rw [handleMicClick_recording st h hrec]
    rfl

theorem toggles_concat (st : State) (answers : List MicAccess) (mic : MicAccess) :
    toggles st (answers ++ [mic]) = toggle (toggles st answers) mic := by
  simp [toggles, List.foldl_append]

theorem toggles_alternate (n : Nat) :
    (toggles init (List.replicate n .granted)).isRecording = decide (n % 2 = 1) := by
  induction n with
  | zero => rfl
  | succ k ih =>
    rw [List.replicate_succ', toggles_concat,
      toggle_flips _ (toggles_recordingInv _ init init_recordingInv), ih]
    rcases Nat.mod_two_eq_zero_or_one k with h | h <;>
      simp [Nat.succ_mod_two_eq_one_iff, Nat.add_mod, h]

/-- C5, as stated, fails: two toggles taken one after the other, both before
the microphone has answered, both see Idle; once both requests are granted the
component is Recording, with two recorders recording at once, where strict
alternation puts it back in Idle after the second toggle. -/
theorem overlapping_toggles_counterexample :
    (run init [.micClick]).isRecording = false ∧
      (run init [.micClick, .micClick]).isRecording = false ∧
      (run init [.micClick, .micClick, .micSettled 0 .granted]).isRecording = true ∧
      (run init [.micClick, .micClick, .micSettled 0 .granted,
        .micSettled 1 .granted]).isRecording = true ∧
      (run init [.micClick, .micClick, .micSettled 0 .granted,
        .micSettled 1 .granted]).recorders.map Recorder.phase =
        [.recording, .recording] := by
  refine ⟨by decide, by decide, by decide, by decide, by decide⟩

/-- C5, amended. The first render is Idle. A toggle in Idle whose microphone
request is answered before any other event clears the error message and moves
to Recording when the microphone is granted; when it is refused the component
stays Idle, shows a non-empty error message, creates no recorder and sends no
request. A toggle in Recording, in any state the component can reach, moves
to Idle. So in every reachable state such a granted toggle flips the state,
and after `n` of them from the first render the component is recording
exactly when `n` is odd. -/
theorem recording_toggle_machine :
    init.isRecording = false ∧
      (∀ st : State, st.isRecording = false →
        (toggle st .granted).errorMessage = "" ∧
          (toggle st .granted).isRecording = true) ∧
      (∀ st : State, st.isRecording = false →
        (toggle st .refused).isRecording = false ∧
          (toggle st .refused).errorMessage ≠ "" ∧
          (toggle st .refused).recorders = st.recorders ∧
          (toggle st .refused).requests = st.requests) ∧
      (∀ (events : List Event) (mic : MicAccess), (run init events).isRecording = true →
        (handleMicClick (run init events)).isRecording = false ∧
          toggle (run init events) mic = handleMicClick (run init events)) ∧
      (∀ events : List Event,
        (toggle (run init events) .granted).isRecording = !(run init events).isRecording) ∧
      (∀ n : Nat, (toggles init (List.replicate n .granted)).isRecording =
        decide (n % 2 = 1)) := by
  refine ⟨rfl, ?_, ?_, ?_, ?_, toggles_alternate⟩
  · intro st hidle
    rw [toggle_idle_granted st hidle]
    exact ⟨rfl, rfl⟩
  · intro st hidle
    rw [toggle_idle_refused st hidle]
    exact ⟨hidle, speakAgain_ne_empty, rfl, rfl⟩
  · intro events mic hrec
    refine ⟨handleMicClick_recording _ (run_recordingInv events init init_recordingInv) hrec, ?_⟩
    simp [toggle, hrec]
  · intro events
    exact toggle_flips _ (run_recordingInv events init init_recordingInv)

theorem recording_toggle_machine_witness :
    ((toggle init .granted).errorMessage = "" ∧
        (toggle init .granted).isRecording = true) ∧
      ((toggle init .refused).isRecording = false ∧
        (toggle init .refused).errorMessage ≠ "" ∧
        (toggle init .refused).recorders = init.recorders ∧
        (toggle init .refused).requests = init.requests) ∧
      (handleMicClick (run init [.micClick, .micSettled 0 .granted])).isRecording = false ∧
      (toggles init (List.replicate 3 .granted)).isRecording = decide (3 % 2 = 1) :=
  ⟨recording_toggle_machine.2.1 init rfl, recording_toggle_machine.2.2.1 init rfl,
    (recording_toggle_machine.2.2.2.1 [.micClick, .micSettled 0 .granted] .refused rfl).1,
    recording_toggle_machine.2.2.2.2.2 3⟩

/-! ## Requests along a run -/

theorem handleMicClick_requests (st : State) :
    (handleMicClick st).requests = st.requests := by
  unfold handleMicClick
  repeat' (first | rfl | split)

theorem step_micSettled_requests (st : State) (k : Nat) (mic : MicAccess) :
    (step st (.micSettled k mic)).requests = st.requests := by
  rcases step_micSettled_eq st k mic with he | ⟨call, _, _, he⟩
  · rw [he]
  · rw [he]
    cases mic <;> rfl

theorem handleMicClick_inactive_iff (st : State) (r : Nat) :
    phaseOf (handleMicClick st) r = some .inactive ↔ phaseOf st r = some .inactive := by
  unfold phaseOf handleMicClick stopRecorder
  cases hrec : st.isRecording with
  | false => simp
  | true =>
    cases hm : st.mediaRecorder with
    | none => simp
    | some m =>
      cases hcur : st.recorders[m]? with
      | none => simp [hcur]
      | some current =>
        by_cases hp : current.phase = .recording
        · by_cases hmr : m = r
          · subst hmr
            simp [hcur, hp, getElem?_set_of_some _ hcur]
          · simp [hcur, hp, List.getElem?_set_ne hmr]
        · simp [hcur, hp]

theorem step_micSettled_inactive_iff (st : State) (k : Nat) (mic : MicAccess) (r : Nat) :
    phaseOf (step st (.micSettled k mic)) r = some .inactive ↔
      phaseOf st r = some .inactive := by
  rcases step_micSettled_eq st k mic with he | ⟨call, _, _, he⟩
  · rw [he]
  · rw [he]
    cases mic with
    | refused => exact Iff.rfl
    | granted =>
      simp only [phaseOf, onMicSettled]
      rcases Nat.lt_trichotomy r st.recorders.length with hlt | heq | hgt
      · rw [List.getElem?_append_left hlt]
      · subst heq
        simp [List.getElem?_concat_length]
      · rw [List.getElem?_eq_none (by simp; omega), List.getElem?_eq_none (by omega)]

theorem map_set_settled {α : Type} (requests : List Request) (q : Nat) (request : Request)
    (h : requests[q]? = some request) (f : Request → α)
    (hf : f { request with settled := true } = f request) :
    (requests.set q { request with settled := true }).map f = requests.map f := by
  apply List.ext_getElem?
  intro n
  simp only [List.getElem?_map, getElem?_set_of_some _ h]
  split
  · rename_i hqn
    subst hqn
    simp [h, hf]
  · rfl

theorem step_countInv (st : State) (ev : Event) (h : CountInv st) : CountInv (step st ev) := by
  intro r
  have hr := h r
  cases ev with
  | micClick =>
    have hiff := handleMicClick_inactive_iff st r
    simp only [step, requestCount, handleMicClick_requests]
    simp only [requestCount] at hr
    rw [hr]
    by_cases hc : phaseOf st r = some .inactive
    · simp [hc, hiff.2 hc]
    · have hc2 : ¬ phaseOf (handleMicClick st) r = some .inactive := fun e => hc (hiff.1 e)
      simp [hc, hc2]
  | micSettled k mic =>
    have hiff := step_micSettled_inactive_iff st k mic r
    simp only [requestCount, step_micSettled_requests]
    simp only [requestCount] at hr
    rw [hr]
    by_cases hc : phaseOf st r = some .inactive
    · simp [hc, hiff.2 hc]
    · have hc2 : ¬ phaseOf (step st (.micSettled k mic)) r = some .inactive :=
        fun e => hc (hiff.1 e)
      simp [hc, hc2]
  | dataavailable r' data =>
    have hsame : phaseOf (step st (.dataavailable r' data)) r = phaseOf st r ∧
        (step st (.dataavailable r' data)).requests = st.requests := by
      simp only [step, phaseOf]
      cases hcur : st.recorders[r']? with
      | none => exact ⟨rfl, rfl⟩
      | some current =>
        by_cases hp : current.phase = .inactive
        · simp [hp]
        · simp only [hp, ne_eq, not_false_eq_true, if_true, and_true]
          by_cases hrr : r' = r
          · subst hrr
            simp [getElem?_set_of_some _ hcur, hcur, ondataavailable]
          · simp [List.getElem?_set_ne hrr]
    simp only [requestCount, hsame.1, hsame.2]
    exact hr
  | stop r' =>
    cases hcur : st.recorders[r']? with
    | none =>
      have hstep : step st (.stop r') = st := by simp [step, hcur]
      rw [hstep]; exact hr
    | some current =>
      by_cases hp : current.phase = .stopping
      · rw [step_stop_stopping st r' current hcur hp]
        simp only [requestCount, List.map_append, List.count_append,
          List.map_cons, List.map_nil, phaseOf]
        simp only [requestCount, phaseOf] at hr
        by_cases hrr : r' = r
        · subst hrr
          rw [hr]
          simp [hcur, hp, getElem?_set_of_some _ hcur]
        · rw [hr]
          simp [List.getElem?_set_ne hrr, List.count_singleton, hrr]
      · have hstep : step st (.stop r') = st := by simp [step, hcur, hp]
        rw [hstep]; exact hr
  | fetchSettled q res now =>
    rcases step_fetchSettled_eq st q res now with he | ⟨request, hcur, _, he⟩
    · rw [he]; exact hr
    · have hf := onFetchSettled_frame
        { st with requests := st.requests.set q { request with settled := true } } res now
      rw [he]
      simp only [requestCount, phaseOf, hf.2.2.2.2.1, hf.2.2.2.2.2.1,
        map_set_settled st.requests q request hcur Request.recorder rfl]
      exact hr
  | selectSource value =>
    have hsame : (step st (.selectSource value)).requests = st.requests ∧
        (step st (.selectSource value)).recorders = st.recorders := by
      simp only [step, sourceOnValueChange, handleSourceLanguageChange]
      split <;> exact ⟨rfl, rfl⟩
    simp only [requestCount, phaseOf, hsame.1, hsame.2]
    exact hr
  | selectTarget value => exact hr

theorem run_countInv (events : List Event) : ∀ st, CountInv st → CountInv (run st events) := by
  induction events with
  | nil => intro st h; exact h
  | cons ev rest ih => intro st h; exact ih _ (step_countInv st ev h)

theorem init_countInv : CountInv init := by
  intro r
  simp [requestCount, phaseOf, init]

theorem step_requests_cases (st : State) (ev : Event) :
    (step st ev).requests = st.requests ∨
      (∃ r current, st.recorders[r]? = some current ∧
        (step st ev).requests = st.requests ++
          [{ formData := onstop current, settled := false, recorder := r }]) ∨
      (∃ q request, st.requests[q]? = some request ∧
        (step st ev).requests = st.requests.set q { request with settled := true }) := by
  cases ev with
  | micClick => exact Or.inl (handleMicClick_requests st)
  | micSettled k mic => exact Or.inl (step_micSettled_requests st k mic)
  | dataavailable r data =>
    left
    simp only [step]
    repeat' (first | rfl | split)
  | stop r =>
    cases hcur : st.recorders[r]? with
    | none => left; simp [step, hcur]
    | some current =>
      by_cases hp : current.phase = .stopping
      · right; left
        exact ⟨r, current, hcur, by rw [step_stop_stopping st r current hcur hp]⟩
      · left; simp [step, hcur, hp]
  | fetchSettled q res now =>
    rcases step_fetchSettled_eq st q res now with he | ⟨request, hcur, _, he⟩
    · left; rw [he]
    · right; right
      refine ⟨q, request, hcur, ?_⟩
      rw [he]
      exact (onFetchSettled_frame _ res now).2.2.2.2.2.1
  | selectSource value =>
    left
    simp only [step, sourceOnValueChange, handleSourceLanguageChange]
    split <;> rfl
  | selectTarget value => exact Or.inl rfl

theorem step_request_stable (st : State) (ev : Event) (q : Nat) (request : Request)
    (h : st.requests[q]? = some request) :
    ∃ request', (step st ev).requests[q]? = some request' ∧
      request'.formData = request.formData ∧ request'.recorder = request.recorder := by
  have hq : q < st.requests.length := (List.getElem?_eq_some.1 h).1
  rcases step_requests_cases st ev with hsame | ⟨_, _, _, hadd⟩ | ⟨q', settled, hq', hset⟩
  · exact ⟨request, by rw [hsame]; exact h, rfl, rfl⟩
  · exact ⟨request, by rw [hadd, List.getElem?_append_left hq]; exact h, rfl, rfl⟩
  · by_cases hqq : q' = q
    · subst hqq
      rw [h] at hq'
      simp only [Option.some.injEq] at hq'
      subst hq'
      exact ⟨{ request with settled := true },
        by rw [hset]; simp [getElem?_set_of_some _ h], rfl, rfl⟩
    · exact ⟨request, by rw [hset, List.getElem?_set_ne hqq]; exact h, rfl, rfl⟩

theorem run_request_stable (events : List Event) :
    ∀ (st : State) (q : Nat) (request : Request), st.requests[q]? = some request →
      ∃ request', (run st events).requests[q]? = some request' ∧
        request'.formData = request.formData ∧ request'.recorder = request.recorder := by
  induction events with
  | nil => intro st q request h; exact ⟨request, h, rfl, rfl⟩
  | cons ev rest ih =>
    intro st q request h
    obtain ⟨r1, h1, hf1, hr1⟩ := step_request_stable st ev q request h
    obtain ⟨r2, h2, hf2, hr2⟩ := ih (step st ev) q r1 h1
    exact ⟨r2, h2, hf2.trans hf1, hr2.trans hr1⟩

theorem step_micRequest_pending (st : State) (ev : Event) (k : Nat) (call : MicRequest)
    (h : st.micRequests[k]? = some call) (hev : ∀ mic, ev ≠ .micSettled k mic) :
    (step st ev).micRequests[k]? = some call := by
  have hk : k < st.micRequests.length := (List.getElem?_eq_some.1 h).1
  cases ev with
  | micClick =>
    simp only [step, handleMicClick]
    split
    · simp only [List.getElem?_append_left hk]
      exact h
    · split <;> exact h
  | micSettled k' mic =>
    have hkk : k' ≠ k := fun e => hev mic (by rw [e])
    rcases step_micSettled_eq st k' mic with he | ⟨other, _, _, he⟩
    · rw [he]; exact h
    · rw [he]
      cases mic with
      | refused =>
        simp only [onMicSettled, List.getElem?_set_ne hkk]
        exact h
      | granted =>
        simp only [onMicSettled, List.getElem?_set_ne hkk]
        exact h
  | dataavailable r data =>
    simp only [step]
    split
    · split <;> exact h
    · exact h
  | stop r =>
    simp only [step]
    split
    · split <;> exact h
    · exact h
  | fetchSettled q res now =>
    rcases step_fetchSettled_eq st q res now with he | ⟨request, _, _, he⟩
    · rw [he]; exact h
    · rw [he, (onFetchSettled_frame _ res now).2.2.2.2.2.2]
      exact h
  | selectSource value =>
    simp only [step, sourceOnValueChange, handleSourceLanguageChange]
    split <;> exact h
  | selectTarget value => exact h

theorem run_micRequest_pending (k : Nat) (events : List Event) :
    ∀ (st : State) (call : MicRequest), st.micRequests[k]? = some call →
      (∀ ev ∈ events, ∀ mic, ev ≠ .micSettled k mic) →
      (run st events).micRequests[k]? = some call := by
  induction events with
  | nil => intro st call h _; exact h
  | cons ev rest ih =>
    intro st call h hno
    exact ih (step st ev) call
      (step_micRequest_pending st ev k call h (hno ev (List.mem_cons_self _ _)))
      (fun e he => hno e (List.mem_cons_of_mem _ he))

theorem step_orphan (st : State) (ev : Event) (r : Nat)
    (hph : phaseOf st r = some .recording) (hm : st.mediaRecorder ≠ some r) :
    phaseOf (step st ev) r = some .recording ∧ (step st ev).mediaRecorder ≠ some r := by
  obtain ⟨recorder, hr, hrec⟩ : ∃ recorder, st.recorders[r]? = some recorder ∧
      recorder.phase = .recording := by
    unfold phaseOf at hph
    cases hcur : st.recorders[r]? with
    | none => simp [hcur] at hph
    | some recorder => exact ⟨recorder, rfl, by simpa [hcur] using hph⟩
  have hlt : r < st.recorders.length := (List.getElem?_eq_some.1 hr).1
  have hne : recorder.phase ≠ .inactive := by rw [hrec]; decide
  by_cases hclick : ev = .micClick
  · subst hclick
    constructor
    · simp only [step, phaseOf]
      unfold handleMicClick stopRecorder
      cases hidle : st.isRecording with
      | false => simpa [hr] using hrec
      | true =>
        cases hmr : st.mediaRecorder with
        | none => simpa [hr] using hrec
        | some m =>
          have hmne : m ≠ r := fun e => hm (by rw [hmr, e])
          cases hcur : st.recorders[m]? with
          | none => simpa [hcur, hr] using hrec
          | some current =>
            by_cases hp : current.phase = .recording
            · simp [hcur, hp, List.getElem?_set_ne hmne, hr, hrec]
            · simpa [hcur, hp, hr] using hrec
    · simp only [step]
      unfold handleMicClick
      repeat' (first | exact hm | split)
  · by_cases hgrant : ∃ k, ev = .micSettled k .granted
    · obtain ⟨k, rfl⟩ := hgrant
      rcases step_micSettled_eq st k .granted with he | ⟨call, hk, hs, _⟩
      · rw [he]; exact ⟨hph, hm⟩
      · rw [step_micSettled_granted st k call hk hs]
        constructor
        · simp only [phaseOf, List.getElem?_append_left hlt, hr, Option.map_some', hrec]
        · intro e
          simp only [Option.some.injEq] at e
          omega
    · have hfr := step_recording_frame st ev hclick (fun k e => hgrant ⟨k, e⟩)
      refine ⟨?_, by rw [hfr.2]; exact hm⟩
      by_cases hstop : ev = .stop r
      · subst hstop
        have hstep : step st (.stop r) = st := by simp [step, hr, hrec]
        rw [hstep]; exact hph
      · obtain ⟨ph, hrec', _, _, hsame⟩ := step_tracks st ev r recorder hr hne hstop
        simp only [phaseOf, hrec', Option.map_some', hsame hclick, hrec]

theorem run_orphan (r : Nat) (events : List Event) :
    ∀ st, phaseOf st r = some .recording → st.mediaRecorder ≠ some r →
      phaseOf (run st events) r = some .recording ∧ (run st events).mediaRecorder ≠ some r := by
  induction events with
  | nil => intro st h1 h2; exact ⟨h1, h2⟩
  | cons ev rest ih =>
    intro st h1 h2
    have h := step_orphan st ev r h1 h2
    exact ih (step st ev) h.1 h.2

theorem step_recorder_pair (st : State) (ev : Event) (r : Nat) (recorder : Recorder)
    (h : st.recorders[r]? = some recorder) :
    ∃ recorder', (step st ev).recorders[r]? = some recorder' ∧
      recorder'.sourceLanguage = recorder.sourceLanguage ∧
      recorder'.targetLanguage = recorder.targetLanguage := by
  have hlt : r < st.recorders.length := (List.getElem?_eq_some.1 h).1
  cases ev with
  | micClick =>
    simp only [step]
    unfold handleMicClick stopRecorder
    cases hrec : st.isRecording with
    | false => exact ⟨recorder, by simpa using h, rfl, rfl⟩
    | true =>
      cases hm : st.mediaRecorder with
      | none => exact ⟨recorder, by simpa using h, rfl, rfl⟩
      | some m =>
        cases hcur : st.recorders[m]? with
        | none => exact ⟨recorder, by simpa [hcur] using h, rfl, rfl⟩
        | some current =>
          by_cases hp : current.phase = .recording
          · by_cases hmr : m = r
            · subst hmr
              rw [h] at hcur
              simp only [Option.some.injEq] at hcur
              subst hcur
              exact ⟨{ recorder with phase := .stopping },
                by simp [h, hp, getElem?_set_of_some _ h], rfl, rfl⟩
            · exact ⟨recorder, by simp [hcur, hp, List.getElem?_set_ne hmr, h], rfl, rfl⟩
          · exact ⟨recorder, by simpa [hcur, hp] using h, rfl, rfl⟩
  | micSettled k mic => exact ⟨recorder, step_micSettled_recorders st k mic r recorder h, rfl, rfl⟩
  | dataavailable r' data =>
    simp only [step]
    cases hcur : st.recorders[r']? with
    | none => exact ⟨recorder, h, rfl, rfl⟩
    | some current =>
      by_cases hp : current.phase = .inactive
      · exact ⟨recorder, by simpa [hp] using h, rfl, rfl⟩
      · by_cases hrr : r' = r
        · subst hrr
          rw [h] at hcur
          simp only [Option.some.injEq] at hcur
          subst hcur
          exact ⟨ondataavailable recorder data,
            by simp [hp, getElem?_set_of_some _ h], rfl, rfl⟩
        · exact ⟨recorder, by simp [hp, List.getElem?_set_ne hrr, h], rfl, rfl⟩
  | stop r' =>
    cases hcur : st.recorders[r']? with
    | none => exact ⟨recorder, by simpa [step, hcur] using h, rfl, rfl⟩
    | some current =>
      by_cases hp : current.phase = .stopping
      · rw [step_stop_stopping st r' current hcur hp]
        by_cases hrr : r' = r
        · subst hrr
          rw [h] at hcur
          simp only [Option.some.injEq] at hcur
          subst hcur
          exact ⟨{ recorder with phase := .inactive },
            by simp [getElem?_set_of_some _ h], rfl, rfl⟩
        · exact ⟨recorder, by simp [List.getElem?_set_ne hrr, h], rfl, rfl⟩
      · exact ⟨recorder, by simpa [step, hcur, hp] using h, rfl, rfl⟩
  | fetchSettled q res now =>
    rcases step_fetchSettled_eq st q res now with he | ⟨request, _, _, he⟩
    · rw [he]; exact ⟨recorder, h, rfl, rfl⟩
    · rw [he, (onFetchSettled_frame _ res now).2.2.2.2.1]
      exact ⟨recorder, h, rfl, rfl⟩
  | selectSource value =>
    simp only [step, sourceOnValueChange, handleSourceLanguageChange]
    split <;> exact ⟨recorder, h, rfl, rfl⟩
  | selectTarget value => exact ⟨recorder, h, rfl, rfl⟩

theorem run_recorder_pair (r : Nat) (events : List Event) :
    ∀ (st : State) (recorder : Recorder), st.recorders[r]? = some recorder →
      ∃ recorder', (run st events).recorders[r]? = some recorder' ∧
        recorder'.sourceLanguage = recorder.sourceLanguage ∧
        recorder'.targetLanguage = recorder.targetLanguage := by
  induction events with
  | nil => intro st recorder h; exact ⟨recorder, h, rfl, rfl⟩
  | cons ev rest ih =>
    intro st recorder h
    obtain ⟨r1, h1, hs1, ht1⟩ := step_recorder_pair st ev r recorder h
    obtain ⟨r2, h2, hs2, ht2⟩ := ih (step st ev) r1 h1
    exact ⟨r2, h2, hs2.trans hs1, ht2.trans ht1⟩

theorem step_pairInv (st : State) (ev : Event) (h : PairInv st) : PairInv (step st ev) := by
  intro q request hq
  have hkeep : ∀ old : Request, (∃ q' : Nat, st.requests[q']? = some old) →
      ∃ recorder, (step st ev).recorders[old.recorder]? = some recorder ∧
        old.formData.lookup "source_language" =
          some (formText (languageCode (some recorder.sourceLanguage))) ∧
        old.formData.lookup "target_language" =
          some (formText (languageCode recorder.targetLanguage)) := by
    intro old ⟨q', hq'⟩
    obtain ⟨recorder, hr, hs, ht⟩ := h q' old hq'
    obtain ⟨recorder', hr', hs', ht'⟩ := step_recorder_pair st ev old.recorder recorder hr
    exact ⟨recorder', hr', by rw [hs']; exact hs, by rw [ht']; exact ht⟩
  rcases step_requests_cases st ev with hsame | ⟨r, current, hcur, hadd⟩ | ⟨q', settled, hq', hset⟩
  · rw [hsame] at hq
    exact hkeep request ⟨q, hq⟩
  · rw [hadd] at hq
    by_cases hlt : q < st.requests.length
    · rw [List.getElem?_append_left hlt] at hq
      exact hkeep request ⟨q, hq⟩
    · have hge : st.requests.length ≤ q := Nat.le_of_not_lt hlt
      rw [List.getElem?_append_right hge] at hq
      have hreq : request = { formData := onstop current, settled := false, recorder := r } := by
        cases hidx : q - st.requests.length with
        | zero => simpa [hidx] using hq.symm
        | succ n => simp [hidx] at hq
      subst hreq
      obtain ⟨recorder', hr', hs', ht'⟩ := step_recorder_pair st ev r current hcur
      exact ⟨recorder', hr', by rw [hs']; rfl, by rw [ht']; rfl⟩
  · rw [hset] at hq
    by_cases hqq : q' = q
    · subst hqq
      rw [getElem?_set_of_some _ hq'] at hq
      simp only [if_true, Option.some.injEq] at hq
      subst hq
      exact hkeep settled ⟨q', hq'⟩
    · rw [List.getElem?_set_ne hqq] at hq
      exact hkeep request ⟨q, hq⟩

theorem run_pairInv (events : List Event) : ∀ st, PairInv st → PairInv (run st events) := by
  induction events with
  | nil => intro st h; exact h
  | cons ev rest ih => intro st h; exact ih _ (step_pairInv st ev h)

theorem init_pairInv : PairInv init := by
  intro q request hq
  simp [init] at hq

/-- C9, as stated, fails: two toggles are taken before the microphone answers
and both requests are granted, so recorders 0 and 1 both start. The stopping
toggle stops only recorder 1, the one `mediaRecorder` now holds: after it one
request has been sent, by recorder 1, and whatever happens later recorder 0
stays recording and its session never builds an artifact. -/
theorem orphaned_session_counterexample :
    phaseOf (run init [.micClick, .micClick, .micSettled 0 .granted]) 0 = some .recording ∧
      (run init [.micClick, .micClick, .micSettled 0 .granted, .micSettled 1 .granted,
        .micClick, .stop 1]).isRecording = false ∧
      (run init [.micClick, .micClick, .micSettled 0 .granted, .micSettled 1 .granted,
        .micClick, .stop 1]).recorders.map Recorder.phase = [.recording, .inactive] ∧
      (run init [.micClick, .micClick, .micSettled 0 .granted, .micSettled 1 .granted,
        .micClick, .stop 1]).requests.map Request.recorder = [1] ∧
      ∀ events : List Event,
        phaseOf (run init ([.micClick, .micClick, .micSettled 0 .granted,
          .micSettled 1 .granted, .micClick, .stop 1] ++ events)) 0 = some .recording ∧
        requestCount (run init ([.micClick, .micClick, .micSettled 0 .granted,
          .micSettled 1 .granted, .micClick, .stop 1] ++ events)) 0 = 0 := by
  refine ⟨by decide, by decide, by decide, by decide, ?_⟩
  intro events
  have hph := (run_orphan 0 events
    (run init [.micClick, .micClick, .micSettled 0 .granted, .micSettled 1 .granted,
      .micClick, .stop 1]) (by decide) (by decide)).1
  rw [run_append]
  refine ⟨hph, ?_⟩
  have hcount := run_countInv events _
    (run_countInv [.micClick, .micClick, .micSettled 0 .granted, .micSettled 1 .granted,
      .micClick, .stop 1] init init_countInv) 0
  rw [hcount, hph]
  simp

/-- C9, amended. When a pending microphone request is granted a fresh recorder
starts. If no other microphone request is granted between that start and the
stopping toggle, the toggle stops this recorder, and when it fires `stop`
exactly one request is added, whose `file` entry is the `audio/webm` blob
holding the concatenation, in arrival order, of the chunks delivered to that
recorder since its start (so nothing of another session). Along every run a
recorder has sent one request once its `onstop` has run and none before, and
a refused microphone request creates no recorder and sends nothing. -/
theorem one_artifact_per_session :
    (∀ (st : State) (k : Nat) (call : MicRequest) (evs1 evs2 : List Event),
      st.micRequests[k]? = some call → call.settled = false →
      (∀ ev ∈ evs1, ev ≠ .stop st.recorders.length ∧ ev ≠ .micClick ∧
        ∀ j, ev ≠ .micSettled j .granted) →
      (∀ ev ∈ evs2, ev ≠ .stop st.recorders.length) →
      (step (run (step st (.micSettled k .granted)) (evs1 ++ .micClick :: evs2))
          (.stop st.recorders.length)).requests =
        (run (step st (.micSettled k .granted)) (evs1 ++ .micClick :: evs2)).requests ++
          [{ formData :=
               [("file", .blob
                  { content := (deliveredTo st.recorders.length (evs1 ++ evs2)).flatten
                    type := "audio/webm" }),
                ("source_language", formText (languageCode (some call.sourceLanguage))),
                ("target_language", formText (languageCode call.targetLanguage))]
             settled := false
             recorder := st.recorders.length }]) ∧
      (∀ (events : List Event) (r : Nat),
        requestCount (run init events) r =
            (if phaseOf (run init events) r = some .inactive then 1 else 0) ∧
          requestCount (run init events) r ≤ 1) ∧
      (∀ (st : State) (k : Nat),
        (step st (.micSettled k .refused)).recorders = st.recorders ∧
          (step st (.micSettled k .refused)).requests = st.requests) := by
  refine ⟨?_, ?_, ?_⟩
  · intro st k call evs1 evs2 hk hs h1 h2
    exact session_request st k call hk hs evs1 evs2 h1 h2
  · intro events r
    have hcount := run_countInv events init init_countInv r
    refine ⟨hcount, ?_⟩
    rw [hcount]
    split <;> decide
  · intro st k
    refine ⟨?_, step_micSettled_requests st k .refused⟩
    rcases step_micSettled_eq st k .refused with he | ⟨call, _, _, he⟩
    · rw [he]
    · rw [he]; rfl

theorem one_artifact_per_session_witness :
    (run init [.micClick, .micSettled 0 .granted, .dataavailable 0 [1, 2], .micClick,
        .dataavailable 0 [3], .stop 0]).requests =
      [{ formData :=
           [("file", .blob { content := [1, 2, 3], type := "audio/webm" }),
            ("source_language", .text "en"), ("target_language", .text "hi")]
         settled := false
         recorder := 0 }] :=
  one_artifact_per_session.1 (run init [.micClick]) 0
    { sourceLanguage := "english", targetLanguage := some "hindi", settled := false }
    [.dataavailable 0 [1, 2]] [.dataavailable 0 [3]] rfl rfl
    (by intro ev he; simp at he; subst he; simp)
    (by intro ev he; simp at he; subst he; simp)

/-! ## Language pair of a request -/

/-- C6, as stated, fails: recording starts under english/hindi, the pair is
changed to french/german while recording, and the request sent after the
stopping toggle still carries `en` and `hi`, not `fr` and `de`. -/
theorem stop_time_pair_counterexample :
    (run init [.micClick, .micSettled 0 .granted, .selectSource "french",
        .selectTarget "german"]).sourceLanguage = "french" ∧
      (run init [.micClick, .micSettled 0 .granted, .selectSource "french",
        .selectTarget "german"]).targetLanguage = some "german" ∧
      (run init [.micClick, .micSettled 0 .granted, .selectSource "french",
        .selectTarget "german"]).isRecording = true ∧
      languageCode (some "french") = some "fr" ∧
      languageCode (some "german") = some "de" ∧
      (run init [.micClick, .micSettled 0 .granted, .selectSource "french",
        .selectTarget "german", .micClick, .stop 0]).requests =
        [{ formData :=
             [("file", .blob { content := [], type := "audio/webm" }),
              ("source_language", .text "en"), ("target_language", .text "hi")]
           settled := false
           recorder := 0 }] := by
  refine ⟨by decide, by decide, by decide, by decide, by decide, by decide⟩

/-- C6, amended. The `source_language` and `target_language` sent for a
recording session are the wire codes of the pair selected when the starting
toggle was invoked, whatever is selected while the microphone is awaited,
between start and stop, between the stopping toggle and the recorder's `stop`
event, or after the request was sent: the request the session sends carries
them, and so does, along every run, any request sent by the recorder that
toggle started. -/
theorem request_carries_start_time_pair :
    (∀ (st : State) (evs0 evs1 evs2 evs3 : List Event), st.isRecording = false →
      (∀ ev ∈ evs0, ∀ mic, ev ≠ .micSettled st.micRequests.length mic) →
      (∀ ev ∈ evs1, ev ≠ .stop (run (handleMicClick st) evs0).recorders.length ∧
        ev ≠ .micClick ∧ ∀ j, ev ≠ .micSettled j .granted) →
      (∀ ev ∈ evs2, ev ≠ .stop (run (handleMicClick st) evs0).recorders.length) →
      ∃ request,
        (run (step (run (step (run (handleMicClick st) evs0)
              (.micSettled st.micRequests.length .granted)) (evs1 ++ .micClick :: evs2))
            (.stop (run (handleMicClick st) evs0).recorders.length)) evs3).requests[
          (run (step (run (handleMicClick st) evs0)
              (.micSettled st.micRequests.length .granted))
            (evs1 ++ .micClick :: evs2)).requests.length]? = some request ∧
        request.recorder = (run (handleMicClick st) evs0).recorders.length ∧
        request.formData.lookup "source_language" =
          some (formText (languageCode (some st.sourceLanguage))) ∧
        request.formData.lookup "target_language" =
          some (formText (languageCode st.targetLanguage))) ∧
      (∀ (before evs0 events : List Event) (q : Nat) (request : Request),
        (run init before).isRecording = false →
        (∀ ev ∈ evs0, ∀ mic, ev ≠ .micSettled (run init before).micRequests.length mic) →
        (run (step (run (handleMicClick (run init before)) evs0)
            (.micSettled (run init before).micRequests.length .granted))
          events).requests[q]? = some request →
        request.recorder = (run (handleMicClick (run init before)) evs0).recorders.length →
        request.formData.lookup "source_language" =
            some (formText (languageCode (some (run init before).sourceLanguage))) ∧
          request.formData.lookup "target_language" =
            some (formText (languageCode (run init before).targetLanguage))) := by
  refine ⟨?_, ?_⟩
  · intro st evs0 evs1 evs2 evs3 hidle h0 h1 h2
    have hcall : (handleMicClick st).micRequests[st.micRequests.length]? =
        some { sourceLanguage := st.sourceLanguage, targetLanguage := st.targetLanguage,
               settled := false } := by
      rw [handleMicClick_idle st hidle]
      exact List.getElem?_concat_length _ _
    have hpend :=
      run_micRequest_pending st.micRequests.length evs0 (handleMicClick st) _ hcall h0
    have hsent := session_request (run (handleMicClick st) evs0) st.micRequests.length _
      hpend rfl evs1 evs2 h1 h2
    have hat : (step (run (step (run (handleMicClick st) evs0)
          (.micSettled st.micRequests.length .granted)) (evs1 ++ .micClick :: evs2))
        (.stop (run (handleMicClick st) evs0).recorders.length)).requests[
          (run (step (run (handleMicClick st) evs0)
              (.micSettled st.micRequests.length .granted))
            (evs1 ++ .micClick :: evs2)).requests.length]? =
        some
          { formData :=
              [("file", .blob
                 { content := (deliveredTo (run (handleMicClick st) evs0).recorders.length
                     (evs1 ++ evs2)).flatten
                   type := "audio/webm" }),
               ("source_language", formText (languageCode (some st.sourceLanguage))),
               ("target_language", formText (languageCode st.targetLanguage))]
            settled := false
            recorder := (run (handleMicClick st) evs0).recorders.length } := by
      rw [hsent]
      exact List.getElem?_concat_length _ _
    obtain ⟨request, hreq, hform, hrec⟩ := run_request_stable evs3 _ _ _ hat
    refine ⟨request, hreq, hrec, ?_, ?_⟩
    · rw [hform]
      rfl
    · rw [hform]
      rfl
  · intro before evs0 events q request hidle h0 hq hrec
    have hcall : (handleMicClick (run init before)).micRequests[
        (run init before).micRequests.length]? =
        some { sourceLanguage := (run init before).sourceLanguage,
               targetLanguage := (run init before).targetLanguage, settled := false } := by
      rw [handleMicClick_idle _ hidle]
      exact List.getElem?_concat_length _ _
    have hpend := run_micRequest_pending (run init before).micRequests.length evs0
      (handleMicClick (run init before)) _ hcall h0
    have hstart := step_micSettled_granted (run (handleMicClick (run init before)) evs0)
      (run init before).micRequests.length _ hpend rfl
    have hnew : (step (run (handleMicClick (run init before)) evs0)
        (.micSettled (run init before).micRequests.length .granted)).recorders[
          (run (handleMicClick (run init before)) evs0).recorders.length]? =
        some { sourceLanguage := (run init before).sourceLanguage,
               targetLanguage := (run init before).targetLanguage,
               audioChunks := [], phase := .recording } := by
      rw [hstart]
      exact List.getElem?_concat_length _ _
    obtain ⟨final, hfinal, hs, ht⟩ := run_recorder_pair _ events _ _ hnew
    have hinv : PairInv (run (step (run (handleMicClick (run init before)) evs0)
        (.micSettled (run init before).micRequests.length .granted)) events) :=
      run_pairInv events _ (step_pairInv _ _ (run_pairInv evs0 _
        (step_pairInv _ .micClick (run_pairInv before init init_pairInv))))
    obtain ⟨recorder, hr, hsrc, htgt⟩ := hinv q request hq
    rw [hrec, hfinal] at hr
    simp only [Option.some.injEq] at hr
    subst hr
    exact ⟨by rw [hsrc, hs], by rw [htgt, ht]⟩

theorem request_carries_start_time_pair_witness :
    ∃ request,
      (run (step (run (step (run (handleMicClick init) [.selectSource "tamil"])
            (.micSettled init.micRequests.length .granted))
            ([.selectSource "french", .selectTarget "german"] ++ .micClick :: []))
          (.stop (run (handleMicClick init) [.selectSource "tamil"]).recorders.length))
          [.selectSource "russian"]).requests[
        (run (step (run (handleMicClick init) [.selectSource "tamil"])
            (.micSettled init.micRequests.length .granted))
          ([.selectSource "french", .selectTarget "german"] ++
            .micClick :: [])).requests.length]? = some request ∧
      request.recorder = (run (handleMicClick init) [.selectSource "tamil"]).recorders.length ∧
      request.formData.lookup "source_language" =
        some (formText (languageCode (some init.sourceLanguage))) ∧
      request.formData.lookup "target_language" =
        some (formText (languageCode init.targetLanguage)) :=
  request_carries_start_time_pair.1 init [.selectSource "tamil"]
    [.selectSource "french", .selectTarget "german"] [] [.selectSource "russian"] rfl
    (by intro ev he; simp at he; subst he; simp)
    (by intro ev he; simp at he; rcases he with he | he <;> subst he <;> simp)
    (by intro ev he; simp at he)

/-! ## Error delivery -/

theorem serverError_ne_empty : serverError ≠ "" := by decide

theorem onFetchSettled_errorExit (st : State) (res : FetchResult) (now : Int)
    (h : errorExit res = true) :
    ∃ message, message ≠ "" ∧ onFetchSettled st res now = { st with errorMessage := message } := by
  cases res with
  | rejected => exact ⟨speakAgain, speakAgain_ne_empty, rfl⟩
  | response status json =>
    cases hok : responseOk status with
    | false =>
      by_cases h400 : status = 400
      · subst h400
        exact ⟨speakAgain, speakAgain_ne_empty, by simp [onFetchSettled, hok]⟩
      · exact ⟨serverError, serverError_ne_empty, by simp [onFetchSettled, hok, h400]⟩
    | true =>
      cases json with
      | none => exact ⟨speakAgain, speakAgain_ne_empty, by simp [onFetchSettled, hok]⟩
      | some data =>
        cases hnull : data.isNullish with
        | true =>
          exact ⟨speakAgain, speakAgain_ne_empty, by simp [onFetchSettled, hok, hnull]⟩
        | false =>
          have herr : (data.prop "error").truthy = true := by
            simpa [errorExit, hok, hnull] using h
          exact ⟨speakAgain, speakAgain_ne_empty, by simp [onFetchSettled, hok, hnull, herr]⟩

theorem handleMicClick_texts (st : State) :
    (handleMicClick st).originalText = st.originalText ∧
      (handleMicClick st).translatedText = st.translatedText ∧
      (handleMicClick st).played = st.played := by
  unfold handleMicClick
  repeat' (first | (refine ⟨rfl, rfl, rfl⟩) | split)

theorem step_texts (st : State) (ev : Event)
    (h : ∀ q res now, ev = .fetchSettled q res now → errorExit res = true) :
    (step st ev).originalText = st.originalText ∧
      (step st ev).translatedText = st.translatedText ∧
      (step st ev).played = st.played := by
  cases ev with
  | micClick => exact handleMicClick_texts st
  | micSettled k mic =>
    rcases step_micSettled_eq st k mic with he | ⟨call, _, _, he⟩
    · rw [he]; exact ⟨rfl, rfl, rfl⟩
    · rw [he]
      cases mic <;> exact ⟨rfl, rfl, rfl⟩
  | dataavailable r data =>
    simp only [step]
    repeat' (first | (refine ⟨rfl, rfl, rfl⟩) | split)
  | stop r =>
    simp only [step]
    repeat' (first | (refine ⟨rfl, rfl, rfl⟩) | split)
  | fetchSettled q res now =>
    rcases step_fetchSettled_eq st q res now with he | ⟨request, _, _, he⟩
    · rw [he]; exact ⟨rfl, rfl, rfl⟩
    · obtain ⟨message, _, hm⟩ := onFetchSettled_errorExit
        { st with requests := st.requests.set q { request with settled := true } }
        res now (h q res now rfl)
      rw [he, hm]
      exact ⟨rfl, rfl, rfl⟩
  | selectSource value =>
    simp only [step, sourceOnValueChange, handleSourceLanguageChange]
    split <;> exact ⟨rfl, rfl, rfl⟩
  | selectTarget value => exact ⟨rfl, rfl, rfl⟩

theorem run_texts (events : List Event) :
    ∀ (st : State),
      (∀ ev ∈ events, ∀ q res now, ev = .fetchSettled q res now → errorExit res = true) →
      (run st events).originalText = st.originalText ∧
        (run st events).translatedText = st.translatedText ∧
        (run st events).played = st.played := by
  induction events with
  | nil => intro st _; exact ⟨rfl, rfl, rfl⟩
  | cons ev rest ih =>
    intro st h
    have h1 := step_texts st ev (h ev (List.mem_cons_self _ _))
    have h2 := ih (step st ev) (fun e he => h e (List.mem_cons_of_mem _ he))
    rw [run_cons, h2.1, h2.2.1, h2.2.2]
    exact h1

/-- C4, as stated, fails: request 0 is sent while both texts are empty, a
second session's request 1 then succeeds and fills the texts, and when
request 0 ends with HTTP 400 the texts are those of request 1, not what they
were before request 0 was sent. -/
theorem texts_since_dispatch_counterexample :
    (run init [.micClick, .micSettled 0 .granted, .micClick]).originalText = .str "" ∧
      (run init [.micClick, .micSettled 0 .granted, .micClick]).translatedText = .str "" ∧
      (run init [.micClick, .micSettled 0 .granted, .micClick,
        .stop 0]).requests.length = 1 ∧
      (run init [.micClick, .micSettled 0 .granted, .micClick, .stop 0,
        .micClick, .micSettled 1 .granted, .micClick, .stop 1,
        .fetchSettled 1 (.response 200 (some (.obj
          [("original_text", .str "hi"), ("translated_text", .str "नमस्ते")]))) 5,
        .fetchSettled 0 (.response 400 none) 6]).errorMessage = "⚠️ Speak Again..." ∧
      (run init [.micClick, .micSettled 0 .granted, .micClick, .stop 0,
        .micClick, .micSettled 1 .granted, .micClick, .stop 1,
        .fetchSettled 1 (.response 200 (some (.obj
          [("original_text", .str "hi"), ("translated_text", .str "नमस्ते")]))) 5,
        .fetchSettled 0 (.response 400 none) 6]).originalText = .str "hi" ∧
      (run init [.micClick, .micSettled 0 .granted, .micClick, .stop 0,
        .micClick, .micSettled 1 .granted, .micClick, .stop 1,
        .fetchSettled 1 (.response 200 (some (.obj
          [("original_text", .str "hi"), ("translated_text", .str "नमस्ते")]))) 5,
        .fetchSettled 0 (.response 400 none) 6]).translatedText = .str "नमस्ते" ∧
      JSValue.str "hi" ≠ JSValue.str "" := by
  refine ⟨rfl, rfl, rfl, rfl, rfl, rfl, ?_⟩
  intro h
  injection h with h
  exact absurd h (by decide)

/-- C4, amended. A request that ends through an error exit (rejected `fetch`,
status outside 200-299, or a 2xx body with a truthy `error`) changes nothing
but the error message when it is delivered; so the texts and the audio played
are what they were before the request was sent, provided every request that
settled in between also ended through an error exit. -/
theorem error_delivery_keeps_texts :
    (∀ (st : State) (r : Nat) (events : List Event) (q : Nat) (res : FetchResult) (now : Int),
      errorExit res = true →
      (∀ ev ∈ events, ∀ q' res' now',
        ev = .fetchSettled q' res' now' → errorExit res' = true) →
      (step (run (step st (.stop r)) events) (.fetchSettled q res now)).originalText =
          st.originalText ∧
        (step (run (step st (.stop r)) events) (.fetchSettled q res now)).translatedText =
          st.translatedText ∧
        (step (run (step st (.stop r)) events) (.fetchSettled q res now)).played =
          st.played) ∧
      (∀ (st : State) (res : FetchResult) (now : Int), errorExit res = true →
        onFetchSettled st res now =
            { st with errorMessage := (onFetchSettled st res now).errorMessage } ∧
          (onFetchSettled st res now).errorMessage ≠ "") ∧
      errorExit .rejected = true ∧
      (∀ status json, ¬ (200 ≤ status ∧ status ≤ 299) →
        errorExit (.response status json) = true) ∧
      (∀ status props v, JSValue.lookupLast "error" props = some v → v.truthy = true →
        errorExit (.response status (some (.obj props))) = true) := by
  refine ⟨?_, ?_, rfl, ?_, ?_⟩
  · intro st r events q res now hres hevents
    have h1 := step_texts st (.stop r) (fun _ _ _ e => by cases e)
    have h2 := run_texts events (step st (.stop r)) hevents
    have h3 := step_texts (run (step st (.stop r)) events) (.fetchSettled q res now)
      (fun q' res' now' e => by
        injection e with _ hr _
        rw [← hr]; exact hres)
    exact ⟨by rw [h3.1, h2.1, h1.1], by rw [h3.2.1, h2.2.1, h1.2.1],
      by rw [h3.2.2, h2.2.2, h1.2.2]⟩
  · intro st res now hres
    obtain ⟨message, hne, hm⟩ := onFetchSettled_errorExit st res now hres
    rw [hm]
    exact ⟨rfl, hne⟩
  · intro status json hout
    simp [errorExit, not_responseOk hout]
  · intro status props v hv ht
    simp [errorExit, JSValue.prop, JSValue.isNullish, hv, ht]

theorem error_delivery_keeps_texts_witness :
    (step (run (step (run init [.micClick, .micSettled 0 .granted, .micClick]) (.stop 0))
        [.selectSource "tamil"]) (.fetchSettled 0 (.response 400 none) 6)).originalText =
      (run init [.micClick, .micSettled 0 .granted, .micClick]).originalText :=
  (error_delivery_keeps_texts.1 (run init [.micClick, .micSettled 0 .granted, .micClick]) 0
    [.selectSource "tamil"] 0 (.response 400 none) 6 rfl
    (by intro ev he; simp at he; subst he; intro q' res' now' e; cases e)).1

/-- C10, as stated, fails: with two requests in flight, request 0 fails and
shows the retry prompt, then request 1 succeeds and clears it; the clearing
step is the delivery of a response, not a toggle. -/
theorem success_clears_error_counterexample :
    (run init [.micClick, .micSettled 0 .granted, .micClick, .stop 0,
        .micClick, .micSettled 1 .granted, .micClick, .stop 1,
        .fetchSettled 0 (.response 400 none) 5]).errorMessage = "⚠️ Speak Again..." ∧
      (step (run init [.micClick, .micSettled 0 .granted, .micClick, .stop 0,
        .micClick, .micSettled 1 .granted, .micClick, .stop 1,
        .fetchSettled 0 (.response 400 none) 5])
        (.fetchSettled 1 (.response 200 (some (.obj
          [("original_text", .str "hi"), ("translated_text", .str "नमस्ते")]))) 6)).errorMessage
        = "" ∧
      (run init [.micClick, .micSettled 0 .granted, .micClick, .stop 0,
        .micClick, .micSettled 1 .granted, .micClick, .stop 1,
        .fetchSettled 0 (.response 400 none) 5]).isRecording = false ∧
      (step (run init [.micClick, .micSettled 0 .granted, .micClick, .stop 0,
        .micClick, .micSettled 1 .granted, .micClick, .stop 1,
        .fetchSettled 0 (.response 400 none) 5])
        (.fetchSettled 1 (.response 200 (some (.obj
          [("original_text", .str "hi"), ("translated_text", .str "नमस्ते")]))) 6)).micRequests.length
        = 2 := by
  refine ⟨by decide, by decide, by decide, by decide⟩

theorem step_errorMessage_frame (st : State) (ev : Event)
    (hclick : ev ≠ .micClick) (hmic : ∀ k mic, ev ≠ .micSettled k mic)
    (hfetch : ∀ q res now, ev ≠ .fetchSettled q res now) :
    (step st ev).errorMessage = st.errorMessage := by
  cases ev with
  | micClick => exact absurd rfl hclick
  | micSettled k mic => exact absurd rfl (hmic k mic)
  | dataavailable r data =>
    simp only [step]
    repeat' (first | rfl | split)
  | stop r =>
    simp only [step]
    repeat' (first | rfl | split)
  | fetchSettled q res now => exact absurd rfl (hfetch q res now)
  | selectSource value =>
    simp only [step, sourceOnValueChange, handleSourceLanguageChange]
    split <;> rfl
  | selectTarget value => rfl

theorem step_micSettled_errorMessage (st : State) (k : Nat) (mic : MicAccess) :
    (step st (.micSettled k mic)).errorMessage = st.errorMessage ∨
      (step st (.micSettled k mic)).errorMessage = speakAgain := by
  rcases step_micSettled_eq st k mic with he | ⟨call, _, _, he⟩
  · left; rw [he]
  · rw [he]
    cases mic with
    | refused => right; rfl
    | granted => left; rfl

/-- C10, amended. A displayed error message is cleared only when a new
recording attempt begins or when a request completes successfully: whenever
the message is non-empty before a step and empty after it, the step is either
a toggle taken in Idle, which clears the message before the microphone is
asked for, or the delivery, to a request still in flight, of a response that
takes none of the error exits (a 2xx response whose parsed body has no truthy
`error`). A toggle taken in Idle always leaves the message empty. -/
theorem error_cleared_only_by :
    (∀ (st : State) (ev : Event), st.errorMessage ≠ "" → (step st ev).errorMessage = "" →
      (ev = .micClick ∧ st.isRecording = false) ∨
        ∃ q status data now request,
          ev = .fetchSettled q (.response status (some data)) now ∧
            st.requests[q]? = some request ∧ request.settled = false ∧
            errorExit (.response status (some data)) = false) ∧
      (∀ st : State, st.isRecording = false → (step st .micClick).errorMessage = "") := by
  refine ⟨?_, ?_⟩
  · intro st ev hbefore hafter
    by_cases hclick : ev = .micClick
    · subst hclick
      left
      refine ⟨rfl, ?_⟩
      cases hrec : st.isRecording with
      | false => rfl
      | true =>
        exfalso
        simp only [step] at hafter
        unfold handleMicClick at hafter
        simp only [hrec, Bool.not_true, Bool.false_eq_true, if_false] at hafter
        split at hafter
        · exact hbefore hafter
        · exact speakAgain_ne_empty hafter
    · by_cases hmic : ∃ k mic, ev = .micSettled k mic
      · obtain ⟨k, mic, rfl⟩ := hmic
        exfalso
        rcases step_micSettled_errorMessage st k mic with he | he
        · rw [he] at hafter; exact hbefore hafter
        · rw [he] at hafter; exact speakAgain_ne_empty hafter
      · by_cases hfetch : ∃ q res now, ev = .fetchSettled q res now
        · obtain ⟨q, res, now, rfl⟩ := hfetch
          right
          rcases step_fetchSettled_eq st q res now with he | ⟨request, hcur, hs, he⟩
          · rw [he] at hafter
            exact absurd hafter hbefore
          · rw [he] at hafter
            cases hexit : errorExit res with
            | true =>
              obtain ⟨message, hne, hm⟩ := onFetchSettled_errorExit
                { st with requests := st.requests.set q { request with settled := true } }
                res now hexit
              rw [hm] at hafter
              exact absurd hafter hne
            | false =>
              cases res with
              | rejected => exact absurd hexit (by decide)
              | response status json =>
                cases json with
                | none => simp [errorExit] at hexit
                | some data => exact ⟨q, status, data, now, request, rfl, hcur, hs, hexit⟩
        · exfalso
          have hfr := step_errorMessage_frame st ev hclick (fun k mic e => hmic ⟨k, mic, e⟩)
            (fun q res now e => hfetch ⟨q, res, now, e⟩)
          rw [hfr] at hafter
          exact hbefore hafter
  · intro st hidle
    simp only [step]
    rw [handleMicClick_idle st hidle]

theorem error_cleared_only_by_witness :
    (Event.micClick = .micClick ∧
        (run init [.micClick, .micSettled 0 .refused]).isRecording = false) ∨
      ∃ q status data now request,
        Event.micClick = .fetchSettled q (.response status (some data)) now ∧
          (run init [.micClick, .micSettled 0 .refused]).requests[q]? = some request ∧
          request.settled = false ∧
          errorExit (.response status (some data)) = false :=
  error_cleared_only_by.1 (run init [.micClick, .micSettled 0 .refused]) .micClick
    (by decide) (by decide)

end AudioTranslator
